import Mathlib

/-!
ImpactX coherent-synchrotron-radiation wakefield pipeline

A shallow embedding of `src/particles/wakefields/` (`CSRBendElement.H`,
`WakeConvolution.H`, `HandleWakefield.H`) together with the properties of the
pipeline description that concern them.

Conventions of the embedding

* `amrex::Real` / `amrex::ParticleReal` is an arbitrary linearly ordered field `α`;
  statements about real numbers instantiate `α := ℝ`.
* `int` is `Int`; container sizes obtained from an `int` go through `Int.toNat`.
  Bin counts are taken in the range where `num_bins + 1` and `num_bins * 2` are
  representable.
* Division is that of the field, so `x / 0 = 0` here, whereas the floating-point
  quotient is infinite or not a number; no statement below relies on the value of a
  quotient whose divisor is zero.
* `std::pow`, `M_PI` and the `ablastr::constant::SI` constants are library values
  that are not part of the sources; they are carried in `Numerics`.
* Functions that are only declared in the headers (`DepositCharge1D`,
  `MeanTransversePosition`, `DerivativeCharge1D`, `convolve_fft`, `WakePush`,
  `MinAndMaxPositions`) are carried in `Collaborators`.  Where a property concerns what
  `DepositCharge1D` or `DerivativeCharge1D` compute, these two are modelled from the
  pipeline description (`withSpec`).
* An MPI run is one `ImpactXParticleContainer` whose `ranks` field lists the
  particles resident on each rank; `HandleWakefield` is embedded as the joint
  execution of the same code on every rank.
-/

namespace impactx

/-! ## Lattice elements -/

/-- Constant-curvature sector bend (`Sbend.H`): the member read by the classifier. -/
structure Sbend (α : Type) where
  m_rc : α

/-- Combined-function bend (`CFbend.H`): the member read by the classifier. -/
structure CFbend (α : Type) where
  m_rc : α

/-- Exact sector bend (`ExactSbend.H`): the classifier only calls its accessor
`rc(refpart)`, which is kept as the function the object determines. -/
structure ExactSbend (α ρ : Type) where
  rc : ρ → α

/-- Short RF cavity (`Buncher.H`). -/
structure Buncher (α : Type) where
  m_V : α
  m_k : α

/-- Dipole edge focusing (`DipEdge.H`); it has a bend radius but is not a CSR element. -/
structure DipEdge (α : Type) where
  m_psi : α
  m_rc : α
  m_g : α
  m_K2 : α

/-- Uniform acceleration (`ChrUniformAcc.H`). -/
structure ChrAcc (α : Type) where
  m_ez : α
  m_bz : α

/-- The lattice-element variant handed to the wakefield code.  `ρ` is the type of
the reference particle.  `other` stands for any further alternative of the variant,
identified by its `type` string. -/
inductive ElementVariant (α ρ : Type) where
  | Sbend (element : Sbend α)
  | CFbend (element : CFbend α)
  | ExactSbend (element : ExactSbend α ρ)
  | Buncher (element : Buncher α)
  | DipEdge (element : DipEdge α)
  | ChrAcc (element : ChrAcc α)
  | other (type : String)

namespace ElementVariant

variable {α ρ : Type}

/-- Counterpart of `std::holds_alternative<Sbend>`. -/
def holds_Sbend : ElementVariant α ρ → Bool
  | .Sbend _ => true
  | _ => false

/-- Counterpart of `std::holds_alternative<CFbend>`. -/
def holds_CFbend : ElementVariant α ρ → Bool
  | .CFbend _ => true
  | _ => false

/-- Counterpart of `std::holds_alternative<ExactSbend>`. -/
def holds_ExactSbend : ElementVariant α ρ → Bool
  | .ExactSbend _ => true
  | _ => false

end ElementVariant

namespace particles.wakefields

variable {α ρ : Type}

/-! ## `CSRBendElement.H` -/

/-- Radius of curvature and CSR flag of a lattice element: the `if / else if` chain
over `std::holds_alternative`, starting from `R = 0`, `element_has_csr = false`. -/
def CSRBendElement [LinearOrderedField α]
    (element_variant : ElementVariant α ρ) (refpart : ρ) : Bool × α :=
  match element_variant with
  | .Sbend element => (true, abs element.m_rc)
  | .CFbend element => (true, abs element.m_rc)
  | .ExactSbend element => (true, abs (element.rc refpart))
  | _ => (false, 0)

/-! ## `WakeConvolution.H` -/

/-- Library values used by the kernel that are not defined in the sources:
`std::pow`, `M_PI` and the SI constants of `ablastr::constant::SI`. -/
structure Numerics (α : Type) where
  pow : α → α → α
  M_PI : α
  q_e : α
  ep0 : α
  m_e : α
  c : α

/-- Step function of `WakeConvolution.H`: `s >= 0 ? 1 : 0`. -/
def unit_step [LinearOrderedField α] (s : α) : α :=
  if s ≥ 0 then 1 else 0

/-- CSR wake function of `WakeConvolution.H`, statement by statement. -/
def w_l_csr [LinearOrderedField α] (N : Numerics α) (s R bin_size : α) : α :=
  let rc := N.pow N.q_e 2 / (4 * N.M_PI * N.ep0 * N.m_e * N.pow N.c 2)
  let kappa := (2 * rc * N.m_e * N.pow N.c 2) / N.pow 3 (1 / 3) / N.pow R (2 / 3)
  (-3) / 2 * kappa / bin_size *
    (unit_step (s + bin_size / 2) * N.pow (abs (s + bin_size / 2)) (2 / 3)
      - unit_step (s - bin_size / 2) * N.pow (abs (s - bin_size / 2)) (2 / 3))

/-- The kernel formula as the pipeline description writes it:
`w(s) = -(3/2) · κ/Δ · ( H(s+Δ/2)·|s+Δ/2|^(2/3) − H(s−Δ/2)·|s−Δ/2|^(2/3) )` with
`κ = 2·r_e·m_e·c² / (3^(1/3) · R^(2/3))`, `r_e = q_e² / (4·π·ε0·m_e·c²)` and
`H(x) = 1` for `x ≥ 0`, else `0`.  Fractional powers are taken with `N.pow`. -/
def w_l_csr_spec [LinearOrderedField α] (N : Numerics α) (s R Δ : α) : α :=
  let H : α → α := fun x => if 0 ≤ x then 1 else 0
  let r_e := N.q_e ^ 2 / (4 * N.M_PI * N.ep0 * N.m_e * N.c ^ 2)
  let κ := 2 * r_e * N.m_e * N.c ^ 2 / (N.pow 3 (1 / 3) * N.pow R (2 / 3))
  (-(3 / 2)) * (κ / Δ) *
    (H (s + Δ / 2) * N.pow (abs (s + Δ / 2)) (2 / 3) - H (s - Δ / 2) * N.pow (abs (s - Δ / 2)) (2 / 3))

/-! ## `HandleWakefield.H`: the wake kernel on its `2 * num_bins` support -/

/-- The lag `s` computed by the body of the kernel loop at index `i`
(`none` when neither branch is taken and the entry keeps its initial value). -/
def wake_lag [LinearOrderedField α] (num_bins : Int) (bin_size : α) (i : Int) : Option α :=
  if i < num_bins then
    some ((i : α) * bin_size)
  else if i > num_bins then
    some (((i - 2 * num_bins : Int) : α) * bin_size)
  else
    none

/-- The vector `wake_function(num_bins*2, 0.0)` after the `ParallelFor` over
`i < num_bins*2` has filled it. -/
def wake_function [LinearOrderedField α] (N : Numerics α) (num_bins : Int) (dR bin_size : α) :
    List α :=
  (List.range (num_bins * 2).toNat).map fun (n : Nat) =>
    let i : Int := n
    if i < num_bins then
      let s := (i : α) * bin_size
      w_l_csr N s dR bin_size
    else if i > num_bins then
      let s := ((i - 2 * num_bins : Int) : α) * bin_size
      w_l_csr N s dR bin_size
    else
      0

/-! ## The bunch, the runtime parameters and the collaborators -/

/-- One macro-particle: positions, momenta and weight. -/
structure Particle (α : Type) where
  x : α
  y : α
  t : α
  px : α
  py : α
  pt : α
  w : α

/-- The particle container of an MPI run: the reference particle (replicated on
every rank) and, per rank, the particles resident there. -/
structure ImpactXParticleContainer (α ρ : Type) where
  refpart : ρ
  ranks : List (List (Particle α))

/-- Result of `MinAndMaxPositions()`. -/
structure Extents (α : Type) where
  x_min : α
  y_min : α
  t_min : α
  x_max : α
  y_max : α
  t_max : α

/-- The entries of the `algo` parameter table read by `HandleWakefield`
(`none`: the entry is absent). -/
structure ParmParse where
  csr : Option Bool
  csr_bins : Option Int

/-- Counterpart of `pp_algo.queryAdd("csr", csr)`: the stored value if present,
otherwise the default, which is then added to the table. -/
def ParmParse.queryAdd_csr (pp : ParmParse) (csr : Bool) : Bool × ParmParse :=
  match pp.csr with
  | some v => (v, pp)
  | none => (csr, ⟨some csr, pp.csr_bins⟩)

/-- Counterpart of `pp_algo.queryAdd("csr_bins", csr_bins)`. -/
def ParmParse.queryAdd_csr_bins (pp : ParmParse) (csr_bins : Int) : Int × ParmParse :=
  match pp.csr_bins with
  | some v => (v, pp)
  | none => (csr_bins, ⟨pp.csr, some csr_bins⟩)

/-- The functions `HandleWakefield` calls whose bodies are not in the sources.
Each takes the arguments of its declaration; an output array is returned.
`MinAndMaxPositions` is given the whole container and the calling rank. -/
structure Collaborators (α ρ : Type) where
  MinAndMaxPositions : ImpactXParticleContainer α ρ → Nat → Extents α
  DepositCharge1D : ρ → List (Particle α) → List α → α → α → Bool → List α
  MeanTransversePosition :
    ρ → List (Particle α) → List α → List α → α → α → Bool → List α × List α
  DerivativeCharge1D : List α → List α → α → Bool → List α
  convolve_fft : List α → List α → α → List α
  WakePush : ρ → List (Particle α) → List α → α → α → α → List (Particle α)

/-- What can end `HandleWakefield` abnormally. -/
inductive Error where
  | runtime_error (what : String)
  deriving DecidableEq

/-- The message of the exception thrown when FFT support is not compiled in. -/
def fft_missing : Error :=
  .runtime_error
    "algo.csr was requested but ImpactX was not compiled with FFT support. Recompile with ImpactX_FFT=ON."

/-- The calls made by `HandleWakefield`, with the rank making them and the
arguments passed (for an output array: its content on entry). -/
inductive Stage (α : Type) where
  | MinAndMaxPositions (rank : Nat)
  | DepositCharge1D (rank : Nat) (charge_distribution : List α) (bin_min bin_size : α)
      (is_unity_particle_weight : Bool)
  | ParallelReduce_Sum (root : Nat)
  | MeanTransversePosition (rank : Nat) (mean_x mean_y : List α) (bin_min bin_size : α)
      (is_unity_particle_weight : Bool)
  | DerivativeCharge1D (rank : Nat) (charge_distribution slopes : List α) (bin_size : α)
      (GetNumberDensity : Bool)
  | w_l_csr (rank : Nat) (s R bin_size : α)
  | convolve_fft (rank : Nat) (beam_profile_slope wake_func : List α) (delta_t : α)
  | Bcast (root : Nat)
  | print (rank : Nat) (convolved_wakefield : List α)
  | WakePush (rank : Nat) (convolved_wakefield : List α) (slice_ds bin_size bin_min : α)

/-- What a call of `HandleWakefield` leaves behind: the exception thrown (if any),
the particle container, the parameter table, and the calls made, in order. -/
structure Outcome (α ρ : Type) where
  error : Option Error
  particle_container : ImpactXParticleContainer α ρ
  pp_algo : ParmParse
  trace : List (Stage α)

/-! ## Collective operations -/

/-- Counterpart of `amrex::ParallelReduce::Sum(data, size, root, comm)` on the
per-rank buffers: the root ends with the element-wise sum over all ranks of the
`size` elements of its buffer, the other buffers are not written. -/
def ParallelReduce_Sum [LinearOrderedField α] (bufs : List (List α)) (root : Nat) :
    List (List α) :=
  bufs.enum.map fun rb =>
    if rb.1 = root then
      (List.range rb.2.length).map fun i => (bufs.map fun b => b.getD i 0).sum
    else rb.2

/-- Counterpart of `amrex::ParallelDescriptor::Bcast(data, size, root)` on the
per-rank buffers: every rank passes its own buffer and its own `size`, and the first
`size` elements of that buffer are overwritten by the root's; no buffer changes its
length. -/
def Bcast (bufs : List (List α)) (root : Nat) : List (List α) :=
  bufs.map fun b => (bufs.getD root []).take b.length ++ b.drop (bufs.getD root []).length

/-! ## `HandleWakefield.H` -/

section HandleWakefield

variable [LinearOrderedField α]

/-- The local `bin_size` on a rank:
`(bin_max - bin_min) / (num_bins - 1)` with `bin_min = t_min`, `bin_max = t_max`. -/
def bin_size (X : Collaborators α ρ) (particle_container : ImpactXParticleContainer α ρ)
    (num_bins : Int) (rank : Nat) : α :=
  let e := X.MinAndMaxPositions particle_container rank
  let bin_min := e.t_min
  let bin_max := e.t_max
  (bin_max - bin_min) / ((num_bins - 1 : Int) : α)

/-- Per rank, `charge_distribution(num_bins + 1, 0.0)` after `DepositCharge1D`. -/
def charge_distribution (X : Collaborators α ρ)
    (particle_container : ImpactXParticleContainer α ρ) (num_bins : Int) : List (List α) :=
  particle_container.ranks.enum.map fun rp =>
    X.DepositCharge1D particle_container.refpart rp.2
      (List.replicate (num_bins + 1).toNat 0)
      (X.MinAndMaxPositions particle_container rp.1).t_min
      (bin_size X particle_container num_bins rp.1) false

/-- The slopes computed inside the `IOProcessor()` block from the reduced histogram:
`slopes(charge_distribution.size() - 1, 0.0)` handed to `DerivativeCharge1D`. -/
def slopes (X : Collaborators α ρ) (charge : List α) (bin_size : α) : List α :=
  X.DerivativeCharge1D charge (List.replicate (charge.length - 1) 0) bin_size true

/-- The value assigned to `convolved_wakefield` inside the `IOProcessor()` block. -/
def convolve_on_io (N : Numerics α) (X : Collaborators α ρ) (num_bins : Int) (R : α)
    (charge : List α) (bin_size : α) : List α :=
  X.convolve_fft (slopes X charge bin_size) (wake_function N num_bins R bin_size) bin_size

/-- Per rank, `convolved_wakefield` right before the broadcast: default-constructed
(empty) everywhere, assigned only where `IOProcessor()` holds. -/
def convolved_wakefield (N : Numerics α) (X : Collaborators α ρ) (io : Nat)
    (particle_container : ImpactXParticleContainer α ρ) (num_bins : Int) (R : α) :
    List (List α) :=
  (ParallelReduce_Sum (charge_distribution X particle_container num_bins) io).enum.map fun rc =>
    if rc.1 = io then
      convolve_on_io N X num_bins R rc.2 (bin_size X particle_container num_bins rc.1)
    else []

/-- Per rank, `convolved_wakefield` after the broadcast from the I/O rank: the
vector the rank hands to `WakePush`. -/
def received_wakefield (N : Numerics α) (X : Collaborators α ρ) (io : Nat)
    (particle_container : ImpactXParticleContainer α ρ) (num_bins : Int) (R : α) :
    List (List α) :=
  Bcast (convolved_wakefield N X io particle_container num_bins R) io

/-- The calls made inside the `IOProcessor()` block. -/
def io_block_trace (N : Numerics α) (X : Collaborators α ρ) (io : Nat) (num_bins : Int)
    (R : α) (charge : List α) (bin_min bin_size : α) : List (Stage α) :=
  [Stage.MeanTransversePosition io (List.replicate num_bins.toNat 0)
      (List.replicate num_bins.toNat 0) bin_min bin_size false,
   Stage.DerivativeCharge1D io charge (List.replicate (charge.length - 1) 0) bin_size true]
  ++ ((List.range (num_bins * 2).toNat).filterMap fun (n : Nat) =>
        (wake_lag num_bins bin_size (n : Int)).map fun s => Stage.w_l_csr io s R bin_size)
  ++ [Stage.convolve_fft io (slopes X charge bin_size) (wake_function N num_bins R bin_size)
        bin_size]

/-- The calls made by one execution of the body of `if (csr && element_has_csr)`,
phase by phase (the two collectives separate the phases). -/
def pipeline_trace (N : Numerics α) (X : Collaborators α ρ) (io : Nat)
    (particle_container : ImpactXParticleContainer α ρ) (num_bins : Int) (R slice_ds : α)
    (print_wakefield : Bool) : List (Stage α) :=
  let nprocs := particle_container.ranks.length
  let t_min := fun r => (X.MinAndMaxPositions particle_container r).t_min
  let bs := bin_size X particle_container num_bins
  let reduced := ParallelReduce_Sum (charge_distribution X particle_container num_bins) io
  let received := received_wakefield N X io particle_container num_bins R
  (List.range nprocs).map (fun r => Stage.MinAndMaxPositions r)
  ++ (List.range nprocs).map (fun r =>
        Stage.DepositCharge1D r (List.replicate (num_bins + 1).toNat 0) (t_min r) (bs r) false)
  ++ [Stage.ParallelReduce_Sum io]
  ++ (if io < nprocs then
        io_block_trace N X io num_bins R (reduced.getD io []) (t_min io) (bs io)
      else [])
  ++ [Stage.Bcast io]
  ++ (if print_wakefield && decide (io < nprocs) then [Stage.print io (received.getD io [])]
      else [])
  ++ (List.range nprocs).map (fun r =>
        Stage.WakePush r (received.getD r []) slice_ds (bs r) (t_min r))

/-- The particles of every rank after `WakePush` was called there with the
`convolved_wakefield` that rank holds after the broadcast. -/
def pushed (N : Numerics α) (X : Collaborators α ρ) (io : Nat)
    (particle_container : ImpactXParticleContainer α ρ) (num_bins : Int) (R slice_ds : α) :
    List (List (Particle α)) :=
  let received := received_wakefield N X io particle_container num_bins R
  particle_container.ranks.enum.map fun rp =>
    X.WakePush particle_container.refpart rp.2 (received.getD rp.1 []) slice_ds
      (bin_size X particle_container num_bins rp.1)
      (X.MinAndMaxPositions particle_container rp.1).t_min

/-- `HandleWakefield`, executed on every rank of the run.  `ImpactX_USE_FFT` is the
compile-time switch, `io` is `IOProcessorNumber()`. -/
def HandleWakefield (N : Numerics α) (X : Collaborators α ρ) (ImpactX_USE_FFT : Bool)
    (io : Nat) (pp_algo : ParmParse) (particle_container : ImpactXParticleContainer α ρ)
    (element_variant : ElementVariant α ρ) (slice_ds : α) (print_wakefield : Bool) :
    Outcome α ρ :=
  let (csr, pp_algo) := pp_algo.queryAdd_csr false
  let (element_has_csr, R) := CSRBendElement element_variant particle_container.refpart
  if csr && element_has_csr then
    if !ImpactX_USE_FFT then
      ⟨some fft_missing, particle_container, pp_algo, []⟩
    else
      let (csr_bins, pp_algo) := pp_algo.queryAdd_csr_bins 150
      let num_bins := csr_bins
      ⟨none,
       ⟨particle_container.refpart, pushed N X io particle_container num_bins R slice_ds⟩,
       pp_algo,
       pipeline_trace N X io particle_container num_bins R slice_ds print_wakefield⟩
  else
    ⟨none, particle_container, pp_algo, []⟩

end HandleWakefield

/-! ## Readings of the parameter table and concrete inputs -/

/-- The value `csr` holds after `pp_algo.queryAdd("csr", csr)` with default `false`. -/
def ParmParse.csr_enabled (pp : ParmParse) : Bool :=
  (pp.queryAdd_csr false).1

/-- The value `num_bins` holds: `csr_bins` after `queryAdd("csr_bins", csr_bins)` with
default `150`, read from the table `queryAdd("csr", csr)` left behind. -/
def ParmParse.num_bins (pp : ParmParse) : Int :=
  ((pp.queryAdd_csr false).2.queryAdd_csr_bins 150).1

/-- A concrete `Numerics`: the CODATA values of `q_e`, `ep0`, `m_e`, `c`,
for a given `pow` and `M_PI`. -/
def Numerics.SI [Field α] (pow : α → α → α) (M_PI : α) : Numerics α :=
  ⟨pow, M_PI, 1.602176634e-19, 8.8541878128e-12, 9.1093837015e-31, 299792458⟩

/-- Bounding extents of a list of particles (all zero for no particle). -/
def extentsOf [LinearOrderedField α] : List (Particle α) → Extents α
  | [] => ⟨0, 0, 0, 0, 0, 0⟩
  | p :: ps =>
    ps.foldl
      (fun e q => ⟨min e.x_min q.x, min e.y_min q.y, min e.t_min q.t,
                   max e.x_max q.x, max e.y_max q.y, max e.t_max q.t⟩)
      ⟨p.x, p.y, p.t, p.x, p.y, p.t⟩

/-- A concrete set of collaborators for evaluating the pipeline at fixed inputs:
the extents are those of the whole bunch on every rank, every output array is
returned with the length it was passed with (`convolve_fft` returns as many samples
as there are slopes), and `WakePush` adds `slice_ds` times the summed wake to `pt`. -/
def sampleCollaborators (α : Type) [LinearOrderedField α] : Collaborators α Unit :=
  ⟨fun pc _ => extentsOf pc.ranks.flatten,
   fun _ _ charge_distribution _ _ _ => charge_distribution,
   fun _ _ mean_x mean_y _ _ _ => (mean_x, mean_y),
   fun _ slopes _ _ => slopes,
   fun beam_profile_slope _ _ => beam_profile_slope,
   fun _ ps wake slice_ds _ _ =>
     ps.map fun p => ⟨p.x, p.y, p.t, p.px, p.py, p.pt + slice_ds * wake.sum, p.w⟩⟩

/-- A bunch of three particles on two ranks, all at the same longitudinal
position `t = 0`. -/
def flatBunch (α : Type) [LinearOrderedField α] : ImpactXParticleContainer α Unit :=
  ⟨(), [[⟨0, 0, 0, 0, 0, 0, 1⟩, ⟨1, 0, 0, 0, 0, 0, 1⟩], [⟨0, 1, 0, 0, 0, 0, 1⟩]]⟩

/-- A bunch of three particles on two ranks with longitudinal positions `0`, `1`
(rank `0`) and `2` (rank `1`). -/
def spreadBunch (α : Type) [LinearOrderedField α] : ImpactXParticleContainer α Unit :=
  ⟨(), [[⟨0, 0, 0, 0, 0, 0, 1⟩, ⟨1, 0, 1, 0, 0, 0, 1⟩], [⟨0, 1, 2, 0, 0, 0, 1⟩]]⟩

/-- A parameter table with `algo.csr = true` and `algo.csr_bins = 2`. -/
def csrOn : ParmParse :=
  ⟨some true, some 2⟩

/-! ## `ChargeBinning.H`: functions whose bodies are not in the sources -/

/-- Add `v` to entry `i` of a histogram (nothing happens if `i` is out of bounds). -/
def add_at [LinearOrderedField α] : List α → Nat → α → List α
  | [], _, _ => []
  | h :: t, 0, v => (h + v) :: t
  | h :: t, i + 1, v => h :: add_at t i v

/-- Modelled from the spec: the bin of the Charge Binner (the body of `DepositCharge1D`
is missing).  The index is `floor((s - bin_min) / bin_size)`; an index outside
`[0, num_bins)` is clamped into the trailing overflow bin, which is entry `num_bins`
of the histogram of `num_bins + 1` entries. -/
def bin_index [LinearOrderedField α] [FloorRing α] (num_bins : Nat)
    (bin_min bin_size s : α) : Nat :=
  let idx : Int := ⌊(s - bin_min) / bin_size⌋
  if 0 ≤ idx ∧ idx < (num_bins : Int) then idx.toNat else num_bins

/-- Modelled from the spec: `DepositCharge1D`, whose body is missing.  Every particle
of the rank adds `1` (unity-weight mode) or its weight to the bin of its longitudinal
position; the histogram handed in has `num_bins + 1` entries, the last one being the
overflow bin. -/
def DepositCharge1D [LinearOrderedField α] [FloorRing α] (myspc : List (Particle α))
    (charge_distribution : List α) (bin_min bin_size : α)
    (is_unity_particle_weight : Bool) : List α :=
  myspc.foldl
    (fun hist p =>
      add_at hist (bin_index (charge_distribution.length - 1) bin_min bin_size p.t)
        (if is_unity_particle_weight then 1 else p.w))
    charge_distribution

/-- Modelled from the spec: `DerivativeCharge1D`, whose body is missing.  For every `i`
with `i + 1` inside the histogram, entry `i` of the output array becomes
`(hist[i+1] - hist[i]) / bin_size`; the conversion to number density is a precondition
on the caller, so the flag does not change the differencing. -/
def DerivativeCharge1D [LinearOrderedField α] (charge_distribution slopes : List α)
    (bin_size : α) (_GetNumberDensity : Bool) : List α :=
  slopes.enum.map fun is =>
    if is.1 + 1 < charge_distribution.length then
      (charge_distribution.getD (is.1 + 1) 0 - charge_distribution.getD is.1 0) / bin_size
    else is.2

/-- Collaborators whose `DepositCharge1D` and `DerivativeCharge1D` are the ones
modelled from the spec; everything else is taken from `X`. -/
def withSpec [LinearOrderedField α] [FloorRing α] (X : Collaborators α ρ) :
    Collaborators α ρ :=
  ⟨X.MinAndMaxPositions,
   fun _ myspc charge_distribution bin_min bin_size is_unity_particle_weight =>
     DepositCharge1D myspc charge_distribution bin_min bin_size is_unity_particle_weight,
   X.MeanTransversePosition,
   DerivativeCharge1D,
   X.convolve_fft,
   X.WakePush⟩

/-- The four particles of the concrete scenario: unit weight, longitudinal positions
`0`, `0.1`, `0.2`, `0.3`. -/
def scenarioParticles (α : Type) [LinearOrderedField α] : List (Particle α) :=
  [⟨0, 0, 0, 0, 0, 0, 1⟩, ⟨0, 0, 1 / 10, 0, 0, 0, 1⟩, ⟨0, 0, 2 / 10, 0, 0, 0, 1⟩,
   ⟨0, 0, 3 / 10, 0, 0, 0, 1⟩]

/-- The scenario particles on two ranks (two particles each). -/
def scenarioBunch (α : Type) [LinearOrderedField α] : ImpactXParticleContainer α Unit :=
  ⟨(), [(scenarioParticles α).take 2, (scenarioParticles α).drop 2]⟩

/-- A parameter table with `algo.csr = true` and `algo.csr_bins = 4`. -/
def csrOn4 : ParmParse :=
  ⟨some true, some 4⟩

/-! ## Theorems: the element classifier -/

/-- C1: for every reference particle, `CSRBendElement` returns `(true, |m_rc|)` on an
`Sbend` and on a `CFbend`, and `(true, |rc(refpart)|)` on an `ExactSbend`. -/
theorem CSRBendElement_bend [LinearOrderedField α] (refpart : ρ)
    (sb : Sbend α) (cf : CFbend α) (ex : ExactSbend α ρ) :
    CSRBendElement (.Sbend sb) refpart = (true, |sb.m_rc|)
    ∧ CSRBendElement (.CFbend cf) refpart = (true, |cf.m_rc|)
    ∧ CSRBendElement (.ExactSbend ex) refpart = (true, |ex.rc refpart|) :=
  ⟨rfl, rfl, rfl⟩

/-- C2: on every element variant that holds neither an `Sbend`, nor a `CFbend`, nor an
`ExactSbend`, and for every reference particle, `CSRBendElement` returns exactly
`(false, 0)`. -/
theorem CSRBendElement_other [LinearOrderedField α] (element_variant : ElementVariant α ρ)
    (refpart : ρ) (hS : element_variant.holds_Sbend = false)
    (hC : element_variant.holds_CFbend = false)
    (hE : element_variant.holds_ExactSbend = false) :
    CSRBendElement element_variant refpart = (false, 0) := by
  cases element_variant <;>
    first
      | rfl
      | exact Bool.noConfusion hS
      | exact Bool.noConfusion hC
      | exact Bool.noConfusion hE

/-- Witness for C2: a dipole edge with bend radius `5` is not a CSR element. -/
theorem CSRBendElement_other_witness :
    CSRBendElement (.DipEdge ⟨1, 5, 1, 1⟩ : ElementVariant ℚ Unit) () = (false, 0) :=
  CSRBendElement_other _ _ rfl rfl rfl

/-- The CSR flag of the classifier is the disjunction of the three tag tests. -/
lemma CSRBendElement_fst [LinearOrderedField α] (element_variant : ElementVariant α ρ)
    (refpart : ρ) :
    (CSRBendElement element_variant refpart).1 =
      (element_variant.holds_Sbend || element_variant.holds_CFbend
        || element_variant.holds_ExactSbend) := by
  cases element_variant <;> rfl

/-! ## Theorems: the three ways through `HandleWakefield` -/

section Paths

variable [LinearOrderedField α] (N : Numerics α) (X : Collaborators α ρ)
  (ImpactX_USE_FFT : Bool) (io : Nat) (pp_algo : ParmParse)
  (particle_container : ImpactXParticleContainer α ρ)
  (element_variant : ElementVariant α ρ) (slice_ds : α) (print_wakefield : Bool)

/-- When `csr && element_has_csr` is false the body is not entered. -/
lemma HandleWakefield_skip
    (h : (pp_algo.csr_enabled
          && (CSRBendElement element_variant particle_container.refpart).1) = false) :
    HandleWakefield N X ImpactX_USE_FFT io pp_algo particle_container element_variant
        slice_ds print_wakefield
      = ⟨none, particle_container, (pp_algo.queryAdd_csr false).2, []⟩ := by
  unfold ParmParse.csr_enabled at h
  simp only [HandleWakefield, h]
  rfl

/-- Without FFT support the body throws as its first statement. -/
lemma HandleWakefield_throw
    (h : (pp_algo.csr_enabled
          && (CSRBendElement element_variant particle_container.refpart).1) = true)
    (hfft : ImpactX_USE_FFT = false) :
    HandleWakefield N X ImpactX_USE_FFT io pp_algo particle_container element_variant
        slice_ds print_wakefield
      = ⟨some fft_missing, particle_container, (pp_algo.queryAdd_csr false).2, []⟩ := by
  unfold ParmParse.csr_enabled at h
  subst hfft
  simp only [HandleWakefield, h]
  rfl

/-- With FFT support the body runs the whole pipeline. -/
lemma HandleWakefield_run
    (h : (pp_algo.csr_enabled
          && (CSRBendElement element_variant particle_container.refpart).1) = true)
    (hfft : ImpactX_USE_FFT = true) :
    HandleWakefield N X ImpactX_USE_FFT io pp_algo particle_container element_variant
        slice_ds print_wakefield
      = ⟨none,
         ⟨particle_container.refpart,
          pushed N X io particle_container pp_algo.num_bins
            (CSRBendElement element_variant particle_container.refpart).2 slice_ds⟩,
         ((pp_algo.queryAdd_csr false).2.queryAdd_csr_bins 150).2,
         pipeline_trace N X io particle_container pp_algo.num_bins
            (CSRBendElement element_variant particle_container.refpart).2 slice_ds
            print_wakefield⟩ := by
  unfold ParmParse.csr_enabled at h
  subst hfft
  simp only [HandleWakefield, h]
  rfl

/-- C3 (as stated, refuted): with `algo.csr` enabled and no FFT support,
`HandleWakefield` on a dipole edge (not a CSR element) returns normally. -/
theorem HandleWakefield_no_fft_returns_normally :
    csrOn.csr_enabled = true
    ∧ (HandleWakefield (Numerics.SI (fun x y : ℝ => x ^ y) Real.pi) (sampleCollaborators ℝ)
        false 0 csrOn (flatBunch ℝ) (.DipEdge ⟨1, 5, 1, 1⟩) 1 false).error = none :=
  ⟨rfl, by
    rw [HandleWakefield_skip (Numerics.SI (fun x y : ℝ => x ^ y) Real.pi)
      (sampleCollaborators ℝ) false 0 csrOn (flatBunch ℝ) (.DipEdge ⟨1, 5, 1, 1⟩) 1 false rfl]⟩

/-- C3 (amended): with `algo.csr` enabled and no FFT support, `HandleWakefield` ends
with the configuration error (it does not return normally) exactly on the CSR elements
`Sbend`, `CFbend` and `ExactSbend`; on every other element it returns normally. -/
theorem HandleWakefield_no_fft (hcsr : pp_algo.csr_enabled = true)
    (hfft : ImpactX_USE_FFT = false) :
    ((element_variant.holds_Sbend || element_variant.holds_CFbend
        || element_variant.holds_ExactSbend) = true →
      (HandleWakefield N X ImpactX_USE_FFT io pp_algo particle_container element_variant
        slice_ds print_wakefield).error = some fft_missing)
    ∧ ((element_variant.holds_Sbend || element_variant.holds_CFbend
        || element_variant.holds_ExactSbend) = false →
      (HandleWakefield N X ImpactX_USE_FFT io pp_algo particle_container element_variant
        slice_ds print_wakefield).error = none) := by
  rw [← CSRBendElement_fst element_variant particle_container.refpart]
  constructor
  · intro h
    rw [HandleWakefield_throw N X ImpactX_USE_FFT io pp_algo particle_container
      element_variant slice_ds print_wakefield (by rw [hcsr, h]; rfl) hfft]
  · intro h
    rw [HandleWakefield_skip N X ImpactX_USE_FFT io pp_algo particle_container
      element_variant slice_ds print_wakefield (by rw [hcsr, h]; rfl)]

/-- Witness for C3 (amended): an `Sbend` of radius `10`, CSR enabled, no FFT support. -/
theorem HandleWakefield_no_fft_witness :
    (((.Sbend ⟨10⟩ : ElementVariant ℝ Unit).holds_Sbend
          || (.Sbend ⟨10⟩ : ElementVariant ℝ Unit).holds_CFbend
          || (.Sbend ⟨10⟩ : ElementVariant ℝ Unit).holds_ExactSbend) = true →
      (HandleWakefield (Numerics.SI (fun x y : ℝ => x ^ y) Real.pi) (sampleCollaborators ℝ)
        false 0 csrOn (flatBunch ℝ) (.Sbend ⟨10⟩) 1 false).error = some fft_missing)
    ∧ (((.Sbend ⟨10⟩ : ElementVariant ℝ Unit).holds_Sbend
          || (.Sbend ⟨10⟩ : ElementVariant ℝ Unit).holds_CFbend
          || (.Sbend ⟨10⟩ : ElementVariant ℝ Unit).holds_ExactSbend) = false →
      (HandleWakefield (Numerics.SI (fun x y : ℝ => x ^ y) Real.pi) (sampleCollaborators ℝ)
        false 0 csrOn (flatBunch ℝ) (.Sbend ⟨10⟩) 1 false).error = none) :=
  HandleWakefield_no_fft _ _ false 0 csrOn _ _ 1 false rfl rfl

/-- C4: whenever `HandleWakefield` ends with the missing-FFT error, no call of the
pipeline (extent query, deposition, reduction, kernel, convolution, broadcast, kick)
was made and the particle container is the one it was given. -/
theorem HandleWakefield_fft_error_before_any_stage
    (h : (HandleWakefield N X ImpactX_USE_FFT io pp_algo particle_container element_variant
            slice_ds print_wakefield).error = some fft_missing) :
    (HandleWakefield N X ImpactX_USE_FFT io pp_algo particle_container element_variant
        slice_ds print_wakefield).trace = []
    ∧ (HandleWakefield N X ImpactX_USE_FFT io pp_algo particle_container element_variant
        slice_ds print_wakefield).particle_container = particle_container := by
  cases hc : (pp_algo.csr_enabled
      && (CSRBendElement element_variant particle_container.refpart).1)
  · rw [HandleWakefield_skip N X ImpactX_USE_FFT io pp_algo particle_container
      element_variant slice_ds print_wakefield hc]
    exact ⟨rfl, rfl⟩
  · rcases Bool.eq_false_or_eq_true ImpactX_USE_FFT with hfft | hfft
    · rw [HandleWakefield_run N X ImpactX_USE_FFT io pp_algo particle_container
        element_variant slice_ds print_wakefield hc hfft] at h
      exact absurd h (by simp)
    · rw [HandleWakefield_throw N X ImpactX_USE_FFT io pp_algo particle_container
        element_variant slice_ds print_wakefield hc hfft]
      exact ⟨rfl, rfl⟩

/-- Witness for C4: the failing call on an `Sbend` leaves the bunch as it was. -/
theorem HandleWakefield_fft_error_before_any_stage_witness :
    (HandleWakefield (Numerics.SI (fun x y : ℝ => x ^ y) Real.pi) (sampleCollaborators ℝ)
        false 0 csrOn (flatBunch ℝ) (.Sbend ⟨10⟩) 1 false).error = some fft_missing
    ∧ (HandleWakefield (Numerics.SI (fun x y : ℝ => x ^ y) Real.pi) (sampleCollaborators ℝ)
        false 0 csrOn (flatBunch ℝ) (.Sbend ⟨10⟩) 1 false).trace = []
    ∧ (HandleWakefield (Numerics.SI (fun x y : ℝ => x ^ y) Real.pi) (sampleCollaborators ℝ)
        false 0 csrOn (flatBunch ℝ) (.Sbend ⟨10⟩) 1 false).particle_container
        = flatBunch ℝ :=
  have herr : (HandleWakefield (Numerics.SI (fun x y : ℝ => x ^ y) Real.pi)
      (sampleCollaborators ℝ) false 0 csrOn (flatBunch ℝ) (.Sbend ⟨10⟩) 1 false).error
      = some fft_missing := by
    rw [HandleWakefield_throw (Numerics.SI (fun x y : ℝ => x ^ y) Real.pi)
      (sampleCollaborators ℝ) false 0 csrOn (flatBunch ℝ) (.Sbend ⟨10⟩) 1 false rfl rfl]
  ⟨herr, HandleWakefield_fft_error_before_any_stage _ _ false 0 csrOn _ _ 1 false herr⟩

/-- C5: if `algo.csr` is off or the classifier reports `has_csr = false`,
`HandleWakefield` returns without error, makes no call of the pipeline, and leaves the
particle container as it was given. -/
theorem HandleWakefield_noop
    (h : pp_algo.csr_enabled = false
          ∨ (CSRBendElement element_variant particle_container.refpart).1 = false) :
    (HandleWakefield N X ImpactX_USE_FFT io pp_algo particle_container element_variant
        slice_ds print_wakefield).error = none
    ∧ (HandleWakefield N X ImpactX_USE_FFT io pp_algo particle_container element_variant
        slice_ds print_wakefield).trace = []
    ∧ (HandleWakefield N X ImpactX_USE_FFT io pp_algo particle_container element_variant
        slice_ds print_wakefield).particle_container = particle_container := by
  have hc : (pp_algo.csr_enabled
      && (CSRBendElement element_variant particle_container.refpart).1) = false := by
    rcases h with h | h <;> simp [h]
  rw [HandleWakefield_skip N X ImpactX_USE_FFT io pp_algo particle_container
    element_variant slice_ds print_wakefield hc]
  exact ⟨rfl, rfl, rfl⟩

/-- Witness for C5: a buncher in a run with CSR enabled and FFT support. -/
theorem HandleWakefield_noop_witness :
    (CSRBendElement (.Buncher ⟨1, 2⟩ : ElementVariant ℝ Unit) (flatBunch ℝ).refpart).1 = false
    ∧ (HandleWakefield (Numerics.SI (fun x y : ℝ => x ^ y) Real.pi) (sampleCollaborators ℝ)
        true 0 csrOn (flatBunch ℝ) (.Buncher ⟨1, 2⟩) 1 false).error = none
    ∧ (HandleWakefield (Numerics.SI (fun x y : ℝ => x ^ y) Real.pi) (sampleCollaborators ℝ)
        true 0 csrOn (flatBunch ℝ) (.Buncher ⟨1, 2⟩) 1 false).trace = []
    ∧ (HandleWakefield (Numerics.SI (fun x y : ℝ => x ^ y) Real.pi) (sampleCollaborators ℝ)
        true 0 csrOn (flatBunch ℝ) (.Buncher ⟨1, 2⟩) 1 false).particle_container
        = flatBunch ℝ :=
  ⟨rfl, HandleWakefield_noop _ _ true 0 csrOn _ _ 1 false (Or.inr rfl)⟩

end Paths

/-! ## Lemmas on the collectives and on the calls of the pipeline -/

/-- Entry `r` of the buffers after a broadcast. -/
lemma Bcast_getElem? (bufs : List (List α)) (root r : Nat) :
    (Bcast bufs root)[r]? =
      bufs[r]?.map fun b =>
        (bufs.getD root []).take b.length ++ b.drop (bufs.getD root []).length := by
  simp [Bcast]

section Pipeline

variable [LinearOrderedField α] (N : Numerics α) (X : Collaborators α ρ) (io : Nat)
  (particle_container : ImpactXParticleContainer α ρ) (num_bins : Int) (R slice_ds : α)
  (print_wakefield : Bool)

/-- A bunch of zero longitudinal extent gives `bin_size = 0`. -/
lemma bin_size_of_flat (r : Nat)
    (h : (X.MinAndMaxPositions particle_container r).t_min
          = (X.MinAndMaxPositions particle_container r).t_max) :
    bin_size X particle_container num_bins r = 0 := by
  simp [bin_size, h]

/-- Before the broadcast the I/O rank holds the convolution result. -/
lemma convolved_wakefield_io (hio : io < particle_container.ranks.length) :
    (convolved_wakefield N X io particle_container num_bins R)[io]? =
      some (convolve_on_io N X num_bins R
        ((ParallelReduce_Sum (charge_distribution X particle_container num_bins) io).getD io [])
        (bin_size X particle_container num_bins io)) := by
  have hlen : io < (ParallelReduce_Sum
      (charge_distribution X particle_container num_bins) io).length := by
    simpa [ParallelReduce_Sum, charge_distribution] using hio
  simp [convolved_wakefield, List.getElem?_enum, List.getElem?_eq_getElem hlen,
    List.getD_eq_getElem?_getD]

/-- Before the broadcast every other rank holds an empty vector. -/
lemma convolved_wakefield_ne (r : Nat) (hr : r < particle_container.ranks.length)
    (hne : r ≠ io) :
    (convolved_wakefield N X io particle_container num_bins R)[r]? = some [] := by
  have hlen : r < (ParallelReduce_Sum
      (charge_distribution X particle_container num_bins) io).length := by
    simpa [ParallelReduce_Sum, charge_distribution] using hr
  simp [convolved_wakefield, List.getElem?_enum, List.getElem?_eq_getElem hlen, hne]

/-- After the broadcast the I/O rank still holds the convolution result. -/
lemma received_wakefield_io (hio : io < particle_container.ranks.length) :
    (received_wakefield N X io particle_container num_bins R)[io]? =
      some (convolve_on_io N X num_bins R
        ((ParallelReduce_Sum (charge_distribution X particle_container num_bins) io).getD io [])
        (bin_size X particle_container num_bins io)) := by
  rw [received_wakefield, Bcast_getElem?, List.getD_eq_getElem?_getD,
    convolved_wakefield_io N X io particle_container num_bins R hio]
  simp

/-- After the broadcast every other rank still holds an empty vector: its receive
buffer has size `0`. -/
lemma received_wakefield_ne (r : Nat) (hr : r < particle_container.ranks.length)
    (hne : r ≠ io) :
    (received_wakefield N X io particle_container num_bins R)[r]? = some [] := by
  rw [received_wakefield, Bcast_getElem?,
    convolved_wakefield_ne N X io particle_container num_bins R r hr hne]
  simp

/-- The `WakePush` calls of the pipeline: one per rank, with the vector that rank
holds after the broadcast. -/
lemma mem_pipeline_trace_WakePush (r : Nat) (wake : List α) (ds bs bm : α) :
    Stage.WakePush r wake ds bs bm ∈
        pipeline_trace N X io particle_container num_bins R slice_ds print_wakefield
      ↔ r < particle_container.ranks.length
        ∧ wake = (received_wakefield N X io particle_container num_bins R).getD r []
        ∧ ds = slice_ds
        ∧ bs = bin_size X particle_container num_bins r
        ∧ bm = (X.MinAndMaxPositions particle_container r).t_min := by
  simp only [pipeline_trace, io_block_trace, List.mem_append, List.mem_map, List.mem_range,
    List.mem_filterMap, List.mem_singleton, List.mem_cons, Option.map_eq_some]
  constructor
  · intro h
    rcases h with h | ⟨a, ha, h⟩
    · split_ifs at h <;> simp at h
    · simp only [Stage.WakePush.injEq] at h
      obtain ⟨rfl, rfl, rfl, rfl, rfl⟩ := h
      exact ⟨ha, rfl, rfl, rfl, rfl⟩
  · rintro ⟨hr, rfl, rfl, rfl, rfl⟩
    exact Or.inr ⟨r, hr, rfl⟩

/-- The I/O rank calls `DerivativeCharge1D` with its `bin_size`. -/
lemma mem_pipeline_trace_DerivativeCharge1D (hio : io < particle_container.ranks.length) :
    Stage.DerivativeCharge1D io
        ((ParallelReduce_Sum (charge_distribution X particle_container num_bins) io).getD io [])
        (List.replicate
          (((ParallelReduce_Sum (charge_distribution X particle_container num_bins) io).getD
            io []).length - 1) 0)
        (bin_size X particle_container num_bins io) true ∈
      pipeline_trace N X io particle_container num_bins R slice_ds print_wakefield := by
  simp [pipeline_trace, io_block_trace, hio]

/-- The I/O rank evaluates `w_l_csr` at the lag of every filled kernel index. -/
lemma mem_pipeline_trace_w_l_csr (hio : io < particle_container.ranks.length) (n : Nat)
    (hn : (n : Int) < num_bins * 2) (s : α)
    (hs : wake_lag num_bins (bin_size X particle_container num_bins io) (n : Int) = some s) :
    Stage.w_l_csr io s R (bin_size X particle_container num_bins io) ∈
      pipeline_trace N X io particle_container num_bins R slice_ds print_wakefield := by
  have hn' : n < (num_bins * 2).toNat := by omega
  simp only [pipeline_trace, io_block_trace, hio, if_true, List.mem_append, List.mem_filterMap,
    List.mem_range]
  exact Or.inl (Or.inl (Or.inl (Or.inr (Or.inl (Or.inr ⟨n, hn', by rw [hs]; rfl⟩)))))

/-- The I/O rank calls `convolve_fft` with the slopes, the kernel and its `bin_size`. -/
lemma mem_pipeline_trace_convolve_fft (hio : io < particle_container.ranks.length) :
    Stage.convolve_fft io
        (slopes X
          ((ParallelReduce_Sum (charge_distribution X particle_container num_bins) io).getD
            io [])
          (bin_size X particle_container num_bins io))
        (wake_function N num_bins R (bin_size X particle_container num_bins io))
        (bin_size X particle_container num_bins io) ∈
      pipeline_trace N X io particle_container num_bins R slice_ds print_wakefield := by
  simp [pipeline_trace, io_block_trace, hio]

/-- On a bunch of zero longitudinal extent the pipeline runs with `bin_size = 0`:
the derivative, the kernel function (at index `0`), the convolution and the kick are
all called with it. -/
lemma pipeline_trace_of_flat (hio : io < particle_container.ranks.length)
    (hbins : 1 ≤ num_bins)
    (hflat : ∀ r, (X.MinAndMaxPositions particle_container r).t_min
                  = (X.MinAndMaxPositions particle_container r).t_max) :
    (∃ charge slopes, Stage.DerivativeCharge1D io charge slopes 0 true ∈
        pipeline_trace N X io particle_container num_bins R slice_ds print_wakefield)
    ∧ Stage.w_l_csr io 0 R 0 ∈
        pipeline_trace N X io particle_container num_bins R slice_ds print_wakefield
    ∧ (∃ slopes wake, Stage.convolve_fft io slopes wake 0 ∈
        pipeline_trace N X io particle_container num_bins R slice_ds print_wakefield)
    ∧ ∀ r, r < particle_container.ranks.length →
        ∃ wake, Stage.WakePush r wake slice_ds 0
            (X.MinAndMaxPositions particle_container r).t_min ∈
          pipeline_trace N X io particle_container num_bins R slice_ds print_wakefield := by
  have hb : ∀ r, bin_size X particle_container num_bins r = 0 := fun r =>
    bin_size_of_flat X particle_container num_bins r (hflat r)
  refine ⟨?_, ?_, ?_, ?_⟩
  · have h := mem_pipeline_trace_DerivativeCharge1D N X io particle_container num_bins R
      slice_ds print_wakefield hio
    rw [hb io] at h
    exact ⟨_, _, h⟩
  · have h := mem_pipeline_trace_w_l_csr N X io particle_container num_bins R slice_ds
      print_wakefield hio 0 (by omega) 0 (by
        have h0 : (0 : Int) < num_bins := by omega
        simp [wake_lag, h0])
    rwa [hb io] at h
  · have h := mem_pipeline_trace_convolve_fft N X io particle_container num_bins R slice_ds
      print_wakefield hio
    rw [hb io] at h
    exact ⟨_, _, h⟩
  · intro r hr
    exact ⟨_, (mem_pipeline_trace_WakePush N X io particle_container num_bins R slice_ds
      print_wakefield r _ _ _ _).2 ⟨hr, rfl, rfl, (hb r).symm, rfl⟩⟩

end Pipeline

/-! ## Theorems: a bunch of zero longitudinal extent -/

/-- The sample extents of the three-particle bunch at `t = 0` are degenerate. -/
lemma flatBunch_extents (r : Nat) :
    ((sampleCollaborators ℝ).MinAndMaxPositions (flatBunch ℝ) r).t_min
      = ((sampleCollaborators ℝ).MinAndMaxPositions (flatBunch ℝ) r).t_max := by
  simp [sampleCollaborators, flatBunch, extentsOf]

/-- C6 (as stated, refuted): on a bunch whose particles all sit at `t = 0`
(`t_min = t_max`), with CSR enabled, FFT support and an `Sbend`, `HandleWakefield`
reports no failure, and it calls the derivative, the kernel function and the kick with
`bin_size = 0`. -/
theorem HandleWakefield_flat_bunch_not_detected :
    ((sampleCollaborators ℝ).MinAndMaxPositions (flatBunch ℝ) 0).t_min
      = ((sampleCollaborators ℝ).MinAndMaxPositions (flatBunch ℝ) 0).t_max
    ∧ (HandleWakefield (Numerics.SI (fun x y : ℝ => x ^ y) Real.pi) (sampleCollaborators ℝ)
        true 0 csrOn (flatBunch ℝ) (.Sbend ⟨10⟩) 1 false).error = none
    ∧ (∃ charge slopes, Stage.DerivativeCharge1D 0 charge slopes 0 true ∈
        (HandleWakefield (Numerics.SI (fun x y : ℝ => x ^ y) Real.pi) (sampleCollaborators ℝ)
          true 0 csrOn (flatBunch ℝ) (.Sbend ⟨10⟩) 1 false).trace)
    ∧ Stage.w_l_csr 0 0 |10| 0 ∈
        (HandleWakefield (Numerics.SI (fun x y : ℝ => x ^ y) Real.pi) (sampleCollaborators ℝ)
          true 0 csrOn (flatBunch ℝ) (.Sbend ⟨10⟩) 1 false).trace
    ∧ (∃ wake bin_min, Stage.WakePush 0 wake 1 0 bin_min ∈
        (HandleWakefield (Numerics.SI (fun x y : ℝ => x ^ y) Real.pi) (sampleCollaborators ℝ)
          true 0 csrOn (flatBunch ℝ) (.Sbend ⟨10⟩) 1 false).trace) := by
  have hrun := HandleWakefield_run (Numerics.SI (fun x y : ℝ => x ^ y) Real.pi)
    (sampleCollaborators ℝ) true 0 csrOn (flatBunch ℝ) (.Sbend ⟨10⟩) 1 false rfl rfl
  have hflat := pipeline_trace_of_flat (Numerics.SI (fun x y : ℝ => x ^ y) Real.pi)
    (sampleCollaborators ℝ) 0 (flatBunch ℝ) 2 |10| 1 false (by decide) (by decide)
    flatBunch_extents
  rw [hrun]
  refine ⟨flatBunch_extents 0, rfl, hflat.1, hflat.2.1, ?_⟩
  obtain ⟨wake, hw⟩ := hflat.2.2.2 0 (by decide)
  exact ⟨wake, _, hw⟩

section FlatBunch

variable [LinearOrderedField α] (N : Numerics α) (X : Collaborators α ρ)
  (ImpactX_USE_FFT : Bool) (io : Nat) (pp_algo : ParmParse)
  (particle_container : ImpactXParticleContainer α ρ)
  (element_variant : ElementVariant α ρ) (slice_ds : α) (print_wakefield : Bool)

/-- C6 (amended): `HandleWakefield` has no guard for a bunch of zero longitudinal
extent.  With CSR enabled, FFT support, a CSR element, at least two bins and
`t_min = t_max`, it returns without error, `bin_size` is `0`, and the I/O rank calls
`DerivativeCharge1D`, `w_l_csr` (at kernel index `0`) and `convolve_fft` with
`bin_size = 0`, after which every rank calls `WakePush` with `bin_size = 0`. -/
theorem HandleWakefield_flat_bunch_unguarded
    (hcsr : pp_algo.csr_enabled = true)
    (hel : (CSRBendElement element_variant particle_container.refpart).1 = true)
    (hfft : ImpactX_USE_FFT = true)
    (hio : io < particle_container.ranks.length)
    (hbins : 2 ≤ pp_algo.num_bins)
    (hflat : ∀ r, (X.MinAndMaxPositions particle_container r).t_min
                  = (X.MinAndMaxPositions particle_container r).t_max) :
    (HandleWakefield N X ImpactX_USE_FFT io pp_algo particle_container element_variant
        slice_ds print_wakefield).error = none
    ∧ (∀ r, bin_size X particle_container pp_algo.num_bins r = 0)
    ∧ (∃ charge slopes, Stage.DerivativeCharge1D io charge slopes 0 true ∈
        (HandleWakefield N X ImpactX_USE_FFT io pp_algo particle_container element_variant
          slice_ds print_wakefield).trace)
    ∧ Stage.w_l_csr io 0 (CSRBendElement element_variant particle_container.refpart).2 0 ∈
        (HandleWakefield N X ImpactX_USE_FFT io pp_algo particle_container element_variant
          slice_ds print_wakefield).trace
    ∧ (∃ slopes wake, Stage.convolve_fft io slopes wake 0 ∈
        (HandleWakefield N X ImpactX_USE_FFT io pp_algo particle_container element_variant
          slice_ds print_wakefield).trace)
    ∧ ∀ r, r < particle_container.ranks.length →
        ∃ wake, Stage.WakePush r wake slice_ds 0
            (X.MinAndMaxPositions particle_container r).t_min ∈
          (HandleWakefield N X ImpactX_USE_FFT io pp_algo particle_container element_variant
            slice_ds print_wakefield).trace := by
  have hflat' := pipeline_trace_of_flat N X io particle_container pp_algo.num_bins
    (CSRBendElement element_variant particle_container.refpart).2 slice_ds print_wakefield
    hio (by omega) hflat
  rw [HandleWakefield_run N X ImpactX_USE_FFT io pp_algo particle_container element_variant
    slice_ds print_wakefield (by rw [hcsr, hel]; rfl) hfft]
  exact ⟨rfl, fun r => bin_size_of_flat X particle_container _ r (hflat r), hflat'⟩

end FlatBunch

/-- Witness for C6 (amended): the three-particle bunch at `t = 0` on two ranks, an
`ExactSbend`, two bins, I/O rank `1`. -/
theorem HandleWakefield_flat_bunch_unguarded_witness :
    (HandleWakefield (Numerics.SI (fun x y : ℝ => x ^ y) Real.pi) (sampleCollaborators ℝ)
        true 1 csrOn (flatBunch ℝ) (.ExactSbend ⟨fun _ => -3⟩) 2 true).error = none
    ∧ (∀ r, bin_size (sampleCollaborators ℝ) (flatBunch ℝ) csrOn.num_bins r = 0)
    ∧ (∃ charge slopes, Stage.DerivativeCharge1D 1 charge slopes 0 true ∈
        (HandleWakefield (Numerics.SI (fun x y : ℝ => x ^ y) Real.pi) (sampleCollaborators ℝ)
          true 1 csrOn (flatBunch ℝ) (.ExactSbend ⟨fun _ => -3⟩) 2 true).trace)
    ∧ Stage.w_l_csr 1 0
          (CSRBendElement (.ExactSbend ⟨fun _ => -3⟩ : ElementVariant ℝ Unit)
            (flatBunch ℝ).refpart).2 0 ∈
        (HandleWakefield (Numerics.SI (fun x y : ℝ => x ^ y) Real.pi) (sampleCollaborators ℝ)
          true 1 csrOn (flatBunch ℝ) (.ExactSbend ⟨fun _ => -3⟩) 2 true).trace
    ∧ (∃ slopes wake, Stage.convolve_fft 1 slopes wake 0 ∈
        (HandleWakefield (Numerics.SI (fun x y : ℝ => x ^ y) Real.pi) (sampleCollaborators ℝ)
          true 1 csrOn (flatBunch ℝ) (.ExactSbend ⟨fun _ => -3⟩) 2 true).trace)
    ∧ ∀ r, r < (flatBunch ℝ).ranks.length →
        ∃ wake, Stage.WakePush r wake 2 0
            ((sampleCollaborators ℝ).MinAndMaxPositions (flatBunch ℝ) r).t_min ∈
          (HandleWakefield (Numerics.SI (fun x y : ℝ => x ^ y) Real.pi)
            (sampleCollaborators ℝ) true 1 csrOn (flatBunch ℝ) (.ExactSbend ⟨fun _ => -3⟩) 2
            true).trace :=
  HandleWakefield_flat_bunch_unguarded (Numerics.SI (fun x y : ℝ => x ^ y) Real.pi)
    (sampleCollaborators ℝ) true 1 csrOn (flatBunch ℝ) (.ExactSbend ⟨fun _ => -3⟩) 2 true
    rfl rfl rfl (by decide) (by decide) flatBunch_extents

/-! ## Theorems: the kernel on its doubled support -/

/-- Entry `i < num_bins` of the kernel. -/
lemma wake_function_layout_aux [LinearOrderedField α] (N : Numerics α) (num_bins : Int)
    (R bin_size : α) (i : Nat) (hi : (i : Int) < num_bins) :
    (wake_function N num_bins R bin_size)[i]?
      = some (w_l_csr N ((i : α) * bin_size) R bin_size) := by
  have hlt : i < (num_bins * 2).toNat := by omega
  simp [wake_function, List.getElem?_range hlt, hi]

/-- C7: for `num_bins ≥ 1` and any `R`, `bin_size`, the kernel built by
`HandleWakefield` has length `2 * num_bins`; entry `i < num_bins` is
`w_l_csr(i * bin_size, R, bin_size)`, entry `num_bins < i < 2 * num_bins` is
`w_l_csr((i - 2 * num_bins) * bin_size, R, bin_size)`, and entry `num_bins` is `0`. -/
theorem wake_function_layout [LinearOrderedField α] (N : Numerics α) (num_bins : Int)
    (h : 1 ≤ num_bins) (R bin_size : α) :
    ((wake_function N num_bins R bin_size).length : Int) = 2 * num_bins
    ∧ (∀ i : Nat, (i : Int) < num_bins →
        (wake_function N num_bins R bin_size)[i]?
          = some (w_l_csr N ((i : α) * bin_size) R bin_size))
    ∧ (∀ i : Nat, num_bins < (i : Int) → (i : Int) < 2 * num_bins →
        (wake_function N num_bins R bin_size)[i]?
          = some (w_l_csr N ((((i : Int) - 2 * num_bins : Int) : α) * bin_size) R bin_size))
    ∧ (wake_function N num_bins R bin_size)[num_bins.toNat]? = some 0 := by
  refine ⟨?_, ?_, ?_, ?_⟩
  · simp only [wake_function, List.length_map, List.length_range]
    omega
  · intro i hi
    exact wake_function_layout_aux N num_bins R bin_size i hi
  · intro i hi hi2
    have hlt : i < (num_bins * 2).toNat := by omega
    have hnot : ¬ (i : Int) < num_bins := by omega
    simp [wake_function, List.getElem?_range hlt, hnot, hi]
  · have hlt : num_bins.toNat < (num_bins * 2).toNat := by omega
    have hcast : ((num_bins.toNat : Nat) : Int) = num_bins := by omega
    simp [wake_function, List.getElem?_range hlt, hcast]

/-- Witness for C7: the kernel on three bins of width `1/2` for radius `10`. -/
theorem wake_function_layout_witness :
    ((wake_function (Numerics.SI (fun x y : ℝ => x ^ y) Real.pi) 3 10 (1 / 2)).length : Int) = 2 * 3
    ∧ (∀ i : Nat, (i : Int) < 3 →
        (wake_function (Numerics.SI (fun x y : ℝ => x ^ y) Real.pi) 3 10 (1 / 2))[i]?
          = some (w_l_csr (Numerics.SI (fun x y : ℝ => x ^ y) Real.pi) ((i : ℝ) * (1 / 2)) 10 (1 / 2)))
    ∧ (∀ i : Nat, (3 : Int) < (i : Int) → (i : Int) < 2 * 3 →
        (wake_function (Numerics.SI (fun x y : ℝ => x ^ y) Real.pi) 3 10 (1 / 2))[i]?
          = some (w_l_csr (Numerics.SI (fun x y : ℝ => x ^ y) Real.pi)
              ((((i : Int) - 2 * 3 : Int) : ℝ) * (1 / 2)) 10 (1 / 2)))
    ∧ (wake_function (Numerics.SI (fun x y : ℝ => x ^ y) Real.pi) 3 10 (1 / 2))[(3 : Int).toNat]?
        = some 0 :=
  wake_function_layout _ 3 (by decide) 10 (1 / 2)

/-- C8 (as stated, refuted): with `num_bins = 2` and `bin_size = 1`, kernel index `0`
(which is not `num_bins`) is filled with the kernel function at lag `0`, while the lag
either branch would give index `num_bins` is `2` or `-2`, not `0`. -/
theorem wake_lag_index_zero_is_lag_zero :
    (0 : Int) ≠ 2
    ∧ wake_lag 2 (1 : ℝ) 0 = some 0
    ∧ (wake_function (Numerics.SI (fun x y : ℝ => x ^ y) Real.pi) 2 10 1)[0]?
        = some (w_l_csr (Numerics.SI (fun x y : ℝ => x ^ y) Real.pi) 0 10 1)
    ∧ wake_lag 2 (1 : ℝ) 2 = none
    ∧ (((2 : Int) : ℝ) * 1 ≠ 0 ∧ ((2 - 2 * 2 : Int) : ℝ) * 1 ≠ 0) := by
  refine ⟨by decide, by simp [wake_lag], ?_, by simp [wake_lag], by norm_num, by norm_num⟩
  have h := (wake_function_layout_aux (Numerics.SI (fun x y : ℝ => x ^ y) Real.pi) 2 10 1 0
    (by decide))
  simpa using h

/-- Every kernel entry is the kernel function at the lag of its index, or `0` where no
lag is assigned. -/
lemma wake_function_eq_lag [LinearOrderedField α] (N : Numerics α) (num_bins : Int)
    (R bin_size : α) (n : Nat) (hn : (n : Int) < num_bins * 2) :
    (wake_function N num_bins R bin_size)[n]?
      = some (((wake_lag num_bins bin_size (n : Int)).map
          fun s => w_l_csr N s R bin_size).getD 0) := by
  have hlt : n < (num_bins * 2).toNat := by omega
  simp only [wake_function, wake_lag, List.getElem?_map, List.getElem?_range hlt,
    Option.map_some']
  split_ifs <;> simp

/-- Which kernel indices get no lag, and which get lag `0`. -/
lemma wake_lag_cases [LinearOrderedField α] (num_bins : Int) (h : 1 ≤ num_bins)
    (bin_size : α) (hb : 0 < bin_size) (i : Int) (h1 : i < 2 * num_bins) :
    (wake_lag num_bins bin_size i = none ↔ i = num_bins)
    ∧ (wake_lag num_bins bin_size i = some 0 ↔ i = 0) := by
  have hbne : bin_size ≠ 0 := ne_of_gt hb
  refine ⟨?_, ?_⟩
  · unfold wake_lag
    split_ifs with ha hc
    · simp; omega
    · simp; omega
    · simp; omega
  · unfold wake_lag
    split_ifs with ha hc
    · simp only [Option.some.injEq, mul_eq_zero, hbne, or_false]
      exact_mod_cast Iff.rfl
    · simp only [Option.some.injEq, mul_eq_zero, hbne, or_false]
      have hne : i - 2 * num_bins ≠ 0 := by omega
      have hne' : ((i - 2 * num_bins : Int) : α) ≠ 0 := by exact_mod_cast hne
      constructor
      · intro hz; exact absurd hz hne'
      · intro hz; omega
    · simp; omega

/-- C8 (amended): for `num_bins ≥ 1` and `bin_size > 0`, among the kernel indices
`0 ≤ i < 2 * num_bins` the only one left unfilled is `num_bins`, but this does not skip
lag `0`: the kernel holds the kernel function at lag `0` in entry `0`, a filled index
has lag `0` exactly when it is index `0`, and the lag either branch would give index
`num_bins` is `num_bins * bin_size` or `-num_bins * bin_size`, neither of which is `0`. -/
theorem wake_lag_zero_iff [LinearOrderedField α] (N : Numerics α) (num_bins : Int)
    (h : 1 ≤ num_bins) (R bin_size : α) (hb : 0 < bin_size) :
    (wake_function N num_bins R bin_size)[0]? = some (w_l_csr N 0 R bin_size)
    ∧ (∀ i : Int, 0 ≤ i → i < 2 * num_bins →
        (wake_lag num_bins bin_size i = none ↔ i = num_bins)
        ∧ (wake_lag num_bins bin_size i = some 0 ↔ i = 0))
    ∧ (num_bins : α) * bin_size ≠ 0
    ∧ ((num_bins - 2 * num_bins : Int) : α) * bin_size ≠ 0 := by
  have hbne : bin_size ≠ 0 := ne_of_gt hb
  have hn : (num_bins : α) ≠ 0 := by
    have : num_bins ≠ 0 := by omega
    exact_mod_cast this
  have hne : num_bins - 2 * num_bins ≠ 0 := by omega
  have hne' : ((num_bins - 2 * num_bins : Int) : α) ≠ 0 := by exact_mod_cast hne
  refine ⟨?_, fun i _ h1 => wake_lag_cases num_bins h bin_size hb i h1,
    mul_ne_zero hn hbne, mul_ne_zero hne' hbne⟩
  have h0 := wake_function_layout_aux N num_bins R bin_size 0 (by omega)
  simpa using h0

/-- Witness for C8 (amended): three bins of width `1/2`, radius `10`. -/
theorem wake_lag_zero_iff_witness :
    (wake_function (Numerics.SI (fun x y : ℝ => x ^ y) Real.pi) 3 10 (1 / 2))[0]?
        = some (w_l_csr (Numerics.SI (fun x y : ℝ => x ^ y) Real.pi) 0 10 (1 / 2))
    ∧ (∀ i : Int, 0 ≤ i → i < 2 * 3 →
        (wake_lag 3 (1 / 2 : ℝ) i = none ↔ i = 3)
        ∧ (wake_lag 3 (1 / 2 : ℝ) i = some 0 ↔ i = 0))
    ∧ ((3 : Int) : ℝ) * (1 / 2) ≠ 0
    ∧ ((3 - 2 * 3 : Int) : ℝ) * (1 / 2) ≠ 0 :=
  wake_lag_zero_iff _ 3 (by decide) 10 (1 / 2) (by norm_num)

/-! ## Theorems: the closed form of the kernel function -/

/-- C9: over the reals, with `std::pow` the real power function, for `R > 0` and
`bin_size = D > 0` the value `w_l_csr(s, R, D)` is
`-(3/2) · (κ/D) · ( H(s+D/2)·|s+D/2|^(2/3) − H(s−D/2)·|s−D/2|^(2/3) )` with
`κ = 2·r_e·m_e·c² / (3^(1/3) · R^(2/3))`, `r_e = q_e² / (4·π·ε0·m_e·c²)` and
`H(x) = 1` for `x ≥ 0`, `0` otherwise. -/
theorem w_l_csr_eq_spec (q_e ep0 m_e c s R D : ℝ) (_hR : 0 < R) (_hD : 0 < D) :
    w_l_csr (Numerics.mk (fun x y => x ^ y) Real.pi q_e ep0 m_e c) s R D
      = w_l_csr_spec (Numerics.mk (fun x y => x ^ y) Real.pi q_e ep0 m_e c) s R D := by
  simp only [w_l_csr, w_l_csr_spec, unit_step, Real.rpow_two, ge_iff_le]
  ring

/-- Witness for C9: the kernel at lag `1/4` for radius `10` and bin size `1/2`, with
the CODATA constants. -/
theorem w_l_csr_eq_spec_witness :
    (0 : ℝ) < 10 ∧ (0 : ℝ) < 1 / 2
    ∧ w_l_csr (Numerics.SI (fun x y : ℝ => x ^ y) Real.pi) (1 / 4) 10 (1 / 2)
        = w_l_csr_spec (Numerics.SI (fun x y : ℝ => x ^ y) Real.pi) (1 / 4) 10 (1 / 2) :=
  ⟨by norm_num, by norm_num,
    w_l_csr_eq_spec _ _ _ _ (1 / 4) 10 (1 / 2) (by norm_num) (by norm_num)⟩

/-! ## Theorems: what each rank hands to `WakePush` -/

section Broadcast

variable [LinearOrderedField α] (N : Numerics α) (X : Collaborators α ρ)
  (ImpactX_USE_FFT : Bool) (io : Nat) (pp_algo : ParmParse)
  (particle_container : ImpactXParticleContainer α ρ)
  (element_variant : ElementVariant α ρ) (slice_ds : α) (print_wakefield : Bool)

/-- C10 (what the code does): in a run of the pipeline on more than one rank, a rank
`r` other than the I/O rank calls `WakePush` with an empty `convolved_wakefield` (its
vector has size `0` before and after `Bcast`), whereas the I/O rank calls it with the
result of `convolve_fft`. -/
theorem HandleWakefield_wake_not_received
    (hcsr : pp_algo.csr_enabled = true)
    (hel : (CSRBendElement element_variant particle_container.refpart).1 = true)
    (hfft : ImpactX_USE_FFT = true)
    (hio : io < particle_container.ranks.length)
    (r : Nat) (hr : r < particle_container.ranks.length) (hne : r ≠ io) :
    (∃ bs bm, Stage.WakePush r [] slice_ds bs bm ∈
        (HandleWakefield N X ImpactX_USE_FFT io pp_algo particle_container element_variant
          slice_ds print_wakefield).trace)
    ∧ (∀ wake ds bs bm, Stage.WakePush r wake ds bs bm ∈
        (HandleWakefield N X ImpactX_USE_FFT io pp_algo particle_container element_variant
          slice_ds print_wakefield).trace → wake = [])
    ∧ (∀ wake ds bs bm, Stage.WakePush io wake ds bs bm ∈
        (HandleWakefield N X ImpactX_USE_FFT io pp_algo particle_container element_variant
          slice_ds print_wakefield).trace →
        wake = convolve_on_io N X pp_algo.num_bins
          (CSRBendElement element_variant particle_container.refpart).2
          ((ParallelReduce_Sum
            (charge_distribution X particle_container pp_algo.num_bins) io).getD io [])
          (bin_size X particle_container pp_algo.num_bins io)) := by
  have hr0 : (received_wakefield N X io particle_container pp_algo.num_bins
      (CSRBendElement element_variant particle_container.refpart).2).getD r [] = [] := by
    rw [List.getD_eq_getElem?_getD, received_wakefield_ne N X io particle_container _ _ r hr hne]
    rfl
  have hio0 := received_wakefield_io N X io particle_container pp_algo.num_bins
      (CSRBendElement element_variant particle_container.refpart).2 hio
  rw [HandleWakefield_run N X ImpactX_USE_FFT io pp_algo particle_container element_variant
    slice_ds print_wakefield (by rw [hcsr, hel]; rfl) hfft]
  refine ⟨?_, ?_, ?_⟩
  · exact ⟨_, _, (mem_pipeline_trace_WakePush N X io particle_container _ _ slice_ds
      print_wakefield r _ _ _ _).2 ⟨hr, hr0.symm, rfl, rfl, rfl⟩⟩
  · intro wake ds bs bm h
    have h' := ((mem_pipeline_trace_WakePush N X io particle_container _ _ slice_ds
      print_wakefield r wake ds bs bm).1 h).2.1
    rw [h', hr0]
  · intro wake ds bs bm h
    have h' := ((mem_pipeline_trace_WakePush N X io particle_container _ _ slice_ds
      print_wakefield io wake ds bs bm).1 h).2.1
    rw [h', List.getD_eq_getElem?_getD, hio0]
    rfl

end Broadcast

/-- With the sample collaborators the I/O rank's convolved wake of the spread bunch
has `num_bins = 2` entries. -/
lemma spreadBunch_io_wake_length :
    (convolve_on_io (Numerics.SI (fun x y : ℝ => x ^ y) Real.pi) (sampleCollaborators ℝ)
      csrOn.num_bins |10|
      ((ParallelReduce_Sum
        (charge_distribution (sampleCollaborators ℝ) (spreadBunch ℝ) csrOn.num_bins) 0).getD 0 [])
      (bin_size (sampleCollaborators ℝ) (spreadBunch ℝ) csrOn.num_bins 0)).length = 2 := by
  simp [convolve_on_io, slopes, sampleCollaborators, ParallelReduce_Sum, charge_distribution,
    spreadBunch, csrOn, ParmParse.num_bins, ParmParse.queryAdd_csr,
    ParmParse.queryAdd_csr_bins, List.enum, List.enumFrom]

/-- Witness for C10 at the failing input: two ranks, I/O rank `0`, an `Sbend` of radius
`10`, CSR enabled with two bins, FFT support.  Rank `1` hands the empty vector to
`WakePush`; rank `0` hands it the convolved wake, which has two entries. -/
theorem HandleWakefield_wake_not_received_witness :
    ((∃ bs bm, Stage.WakePush 1 [] 1 bs bm ∈
        (HandleWakefield (Numerics.SI (fun x y : ℝ => x ^ y) Real.pi) (sampleCollaborators ℝ)
          true 0 csrOn (spreadBunch ℝ) (.Sbend ⟨10⟩) 1 false).trace)
      ∧ (∀ wake ds bs bm, Stage.WakePush 1 wake ds bs bm ∈
          (HandleWakefield (Numerics.SI (fun x y : ℝ => x ^ y) Real.pi) (sampleCollaborators ℝ)
            true 0 csrOn (spreadBunch ℝ) (.Sbend ⟨10⟩) 1 false).trace → wake = [])
      ∧ (∀ wake ds bs bm, Stage.WakePush 0 wake ds bs bm ∈
          (HandleWakefield (Numerics.SI (fun x y : ℝ => x ^ y) Real.pi) (sampleCollaborators ℝ)
            true 0 csrOn (spreadBunch ℝ) (.Sbend ⟨10⟩) 1 false).trace →
          wake = convolve_on_io (Numerics.SI (fun x y : ℝ => x ^ y) Real.pi)
            (sampleCollaborators ℝ) csrOn.num_bins |10|
            ((ParallelReduce_Sum
              (charge_distribution (sampleCollaborators ℝ) (spreadBunch ℝ) csrOn.num_bins)
              0).getD 0 [])
            (bin_size (sampleCollaborators ℝ) (spreadBunch ℝ) csrOn.num_bins 0)))
    ∧ (convolve_on_io (Numerics.SI (fun x y : ℝ => x ^ y) Real.pi) (sampleCollaborators ℝ)
        csrOn.num_bins |10|
        ((ParallelReduce_Sum
          (charge_distribution (sampleCollaborators ℝ) (spreadBunch ℝ) csrOn.num_bins)
          0).getD 0 [])
        (bin_size (sampleCollaborators ℝ) (spreadBunch ℝ) csrOn.num_bins 0)).length = 2 :=
  ⟨HandleWakefield_wake_not_received (Numerics.SI (fun x y : ℝ => x ^ y) Real.pi)
      (sampleCollaborators ℝ) true 0 csrOn (spreadBunch ℝ) (.Sbend ⟨10⟩) 1 false
      rfl rfl rfl (by decide) 1 (by decide) (by decide),
    spreadBunch_io_wake_length⟩

/-! ## Theorems: the step function and the causal half of the kernel -/

/-- C17 (what the code does): `unit_step` is `s >= 0 ? 1 : 0`, so it returns `1` at
`s = 0`, where its documentation ("returns 1 if s>0, else 0") says `0`; for every
`s ≠ 0` the two agree. -/
theorem unit_step_at_zero [LinearOrderedField α] :
    unit_step (0 : α) = 1
    ∧ ∀ s : α, (0 < s → unit_step s = 1) ∧ (s < 0 → unit_step s = 0) := by
  refine ⟨by simp [unit_step], fun s => ⟨fun h => ?_, fun h => ?_⟩⟩
  · simp [unit_step, le_of_lt h]
  · simp [unit_step, not_le.mpr h]

/-- The kernel function vanishes for every lag below `-bin_size / 2`. -/
lemma w_l_csr_eq_zero [LinearOrderedField α] (N : Numerics α) (s R D : α)
    (hs : s < -(D / 2)) (hD : 0 < D) : w_l_csr N s R D = 0 := by
  have h1 : ¬ (0 ≤ s + D / 2) := by
    intro h
    linarith
  have h2 : ¬ (0 ≤ s - D / 2) := by
    intro h
    linarith
  simp [w_l_csr, unit_step, h1, h2]

/-- C19: the kernel built by `HandleWakefield` is causal: for `num_bins ≥ 1`, `R > 0`
and `bin_size = D > 0`, `w_l_csr(s, R, D) = 0` for every `s < -D/2`, and every kernel
entry with index `num_bins ≤ i < 2 * num_bins` is `0`. -/
theorem wake_function_causal [LinearOrderedField α] (N : Numerics α) (num_bins : Int)
    (_h : 1 ≤ num_bins) (R D : α) (_hR : 0 < R) (hD : 0 < D) :
    (∀ s : α, s < -(D / 2) → w_l_csr N s R D = 0)
    ∧ ∀ i : Nat, num_bins ≤ (i : Int) → (i : Int) < 2 * num_bins →
        (wake_function N num_bins R D)[i]? = some 0 := by
  refine ⟨fun s hs => w_l_csr_eq_zero N s R D hs hD, fun i hi hi2 => ?_⟩
  rw [wake_function_eq_lag N num_bins R D i (by omega)]
  rcases eq_or_lt_of_le hi with heq | hlt
  · simp [wake_lag, ← heq]
  · have hnot : ¬ (i : Int) < num_bins := by omega
    have hneg : ((i : Int) - 2 * num_bins) ≤ -1 := by omega
    have hneg' : (((i : Int) - 2 * num_bins : Int) : α) ≤ -1 := by exact_mod_cast hneg
    have hs : (((i : Int) - 2 * num_bins : Int) : α) * D < -(D / 2) := by
      nlinarith
    simp only [wake_lag, hnot, if_false, gt_iff_lt, hlt, if_true, Option.map_some',
      Option.getD_some]
    rw [w_l_csr_eq_zero N _ R D hs hD]

/-- Witness for C19: three bins of width `1/2`, radius `10`. -/
theorem wake_function_causal_witness :
    (∀ s : ℝ, s < -((1 / 2) / 2) →
        w_l_csr (Numerics.SI (fun x y : ℝ => x ^ y) Real.pi) s 10 (1 / 2) = 0)
    ∧ ∀ i : Nat, (3 : Int) ≤ (i : Int) → (i : Int) < 2 * 3 →
        (wake_function (Numerics.SI (fun x y : ℝ => x ^ y) Real.pi) 3 10 (1 / 2))[i]?
          = some 0 :=
  wake_function_causal _ 3 (by decide) 10 (1 / 2) (by norm_num) (by norm_num)

/-! ## Theorems: the derivative of the histogram -/

/-- The modelled derivative writes into the array it is handed: the length is kept. -/
lemma DerivativeCharge1D_length [LinearOrderedField α] (hist slopes : List α)
    (bin_size : α) (flag : Bool) :
    (DerivativeCharge1D hist slopes bin_size flag).length = slopes.length := by
  simp [DerivativeCharge1D]

/-- Entry `i` of the modelled derivative. -/
lemma DerivativeCharge1D_entry [LinearOrderedField α] (hist slopes : List α)
    (bin_size : α) (flag : Bool) (i : Nat) (hi : i < slopes.length)
    (hi1 : i + 1 < hist.length) :
    (DerivativeCharge1D hist slopes bin_size flag)[i]?
      = some ((hist.getD (i + 1) 0 - hist.getD i 0) / bin_size) := by
  simp [DerivativeCharge1D, List.getElem?_enum, List.getElem?_eq_getElem hi, hi1]

/-- C14: for a histogram of length `N + 1`, an output array of length `N` and
`bin_size ≠ 0`, `DerivativeCharge1D` yields `N` slopes with
`slope[i] = (hist[i+1] - hist[i]) / bin_size` for every `i < N`; the histogram
`[1,1,1,1,0]` with `bin_size = 0.1` yields `[0,0,0,-10]`. -/
theorem DerivativeCharge1D_forward_difference [LinearOrderedField α] (hist slopes : List α)
    (bin_size : α) (_hb : bin_size ≠ 0) (flag : Bool) (N : Nat)
    (hN : hist.length = N + 1) (hs : slopes.length = N) :
    (DerivativeCharge1D hist slopes bin_size flag).length = N
    ∧ (∀ i, i < N →
        (DerivativeCharge1D hist slopes bin_size flag)[i]?
          = some ((hist.getD (i + 1) 0 - hist.getD i 0) / bin_size))
    ∧ DerivativeCharge1D [1, 1, 1, 1, 0] (List.replicate 4 0) (1 / 10 : ℚ) true
        = [0, 0, 0, -10] := by
  refine ⟨?_, ?_, ?_⟩
  · rw [DerivativeCharge1D_length, hs]
  · intro i hi
    exact DerivativeCharge1D_entry hist slopes bin_size flag i (by omega) (by omega)
  · norm_num [DerivativeCharge1D, List.enum, List.enumFrom, List.replicate]

/-- Witness for C14: the histogram `[1,1,1,1,0]` over the rationals, as
`HandleWakefield` hands it over (zero-initialised output array, number-density flag). -/
theorem DerivativeCharge1D_forward_difference_witness :
    (DerivativeCharge1D [1, 1, 1, 1, 0] (List.replicate 4 0) (1 / 10 : ℚ) true).length = 4
    ∧ (∀ i, i < 4 →
        (DerivativeCharge1D [1, 1, 1, 1, 0] (List.replicate 4 0) (1 / 10 : ℚ) true)[i]?
          = some ((([1, 1, 1, 1, 0] : List ℚ).getD (i + 1) 0
              - ([1, 1, 1, 1, 0] : List ℚ).getD i 0) / (1 / 10)))
    ∧ DerivativeCharge1D [1, 1, 1, 1, 0] (List.replicate 4 0) (1 / 10 : ℚ) true
        = [0, 0, 0, -10] :=
  DerivativeCharge1D_forward_difference [1, 1, 1, 1, 0] (List.replicate 4 0) (1 / 10)
    (by norm_num) true 4 rfl rfl

/-! ## Lemmas: the remaining calls of the pipeline and the reduction -/

section Calls

variable [LinearOrderedField α] (N : Numerics α) (X : Collaborators α ρ) (io : Nat)
  (particle_container : ImpactXParticleContainer α ρ) (num_bins : Int) (R slice_ds : α)
  (print_wakefield : Bool)

/-- The `DepositCharge1D` calls of the pipeline: one per rank, on a zero histogram of
`num_bins + 1` entries, with that rank's `t_min` and `bin_size`. -/
lemma mem_pipeline_trace_DepositCharge1D (r : Nat) (hist : List α) (bm bs : α) (u : Bool) :
    Stage.DepositCharge1D r hist bm bs u ∈
        pipeline_trace N X io particle_container num_bins R slice_ds print_wakefield
      ↔ r < particle_container.ranks.length
        ∧ hist = List.replicate (num_bins + 1).toNat 0
        ∧ bm = (X.MinAndMaxPositions particle_container r).t_min
        ∧ bs = bin_size X particle_container num_bins r
        ∧ u = false := by
  simp only [pipeline_trace, io_block_trace]
  split_ifs <;> simp <;> constructor <;> aesop

/-- The `MeanTransversePosition` call of the pipeline: on the I/O rank only, with two
zero arrays of `num_bins` entries. -/
lemma mem_pipeline_trace_MeanTransversePosition (r : Nat) (mx my : List α) (bm bs : α)
    (u : Bool) :
    Stage.MeanTransversePosition r mx my bm bs u ∈
        pipeline_trace N X io particle_container num_bins R slice_ds print_wakefield
      ↔ io < particle_container.ranks.length
        ∧ r = io
        ∧ mx = List.replicate num_bins.toNat 0
        ∧ my = List.replicate num_bins.toNat 0
        ∧ bm = (X.MinAndMaxPositions particle_container io).t_min
        ∧ bs = bin_size X particle_container num_bins io
        ∧ u = false := by
  simp only [pipeline_trace, io_block_trace]
  split_ifs <;> simp <;> aesop

/-- The `convolve_fft` call of the pipeline: on the I/O rank only, with the slopes of
the reduced histogram, the kernel, and the I/O rank's `bin_size`. -/
lemma mem_pipeline_trace_convolve_fft_iff (r : Nat) (sl wk : List α) (dt : α) :
    Stage.convolve_fft r sl wk dt ∈
        pipeline_trace N X io particle_container num_bins R slice_ds print_wakefield
      ↔ io < particle_container.ranks.length
        ∧ r = io
        ∧ sl = slopes X
            ((ParallelReduce_Sum (charge_distribution X particle_container num_bins) io).getD
              io [])
            (bin_size X particle_container num_bins io)
        ∧ wk = wake_function N num_bins R (bin_size X particle_container num_bins io)
        ∧ dt = bin_size X particle_container num_bins io := by
  simp only [pipeline_trace, io_block_trace]
  split_ifs <;> simp <;> aesop

/-- What the root holds after the reduction. -/
lemma ParallelReduce_Sum_root (bufs : List (List α)) (root : Nat) (h : root < bufs.length) :
    (ParallelReduce_Sum bufs root).getD root []
      = (List.range (bufs.getD root []).length).map fun i =>
          (bufs.map fun b => b.getD i 0).sum := by
  simp [ParallelReduce_Sum, List.getD_eq_getElem?_getD, List.getElem?_enum,
    List.getElem?_eq_getElem h]

/-- The histogram a rank holds after its `DepositCharge1D` call. -/
lemma charge_distribution_getD (r : Nat) (hr : r < particle_container.ranks.length) :
    (charge_distribution X particle_container num_bins).getD r []
      = X.DepositCharge1D particle_container.refpart (particle_container.ranks.getD r [])
          (List.replicate (num_bins + 1).toNat 0)
          (X.MinAndMaxPositions particle_container r).t_min
          (bin_size X particle_container num_bins r) false := by
  simp [charge_distribution, List.getD_eq_getElem?_getD, List.getElem?_enum,
    List.getElem?_eq_getElem hr]

/-- The number of ranks holding a histogram. -/
lemma charge_distribution_length :
    (charge_distribution X particle_container num_bins).length
      = particle_container.ranks.length := by
  simp [charge_distribution]

/-- If `DepositCharge1D` and `DerivativeCharge1D` keep the length of the output array
they are handed, the slopes given to `convolve_fft` are one fewer than the
`num_bins + 1` histogram entries. -/
lemma slopes_length_of_preserving
    (hdep : ∀ rp ps (h : List α) bm b u, (X.DepositCharge1D rp ps h bm b u).length = h.length)
    (hder : ∀ (c s : List α) b f, (X.DerivativeCharge1D c s b f).length = s.length)
    (hio : io < particle_container.ranks.length) (b : α) :
    (slopes X
      ((ParallelReduce_Sum (charge_distribution X particle_container num_bins) io).getD io [])
      b).length = (num_bins + 1).toNat - 1 := by
  rw [slopes, hder, List.length_replicate, ParallelReduce_Sum_root _ _
    (by rw [charge_distribution_length]; exact hio), List.length_map, List.length_range,
    charge_distribution_getD X particle_container num_bins io hio, hdep,
    List.length_replicate]

end Calls

/-! ## Theorems: the arrays allocated by `HandleWakefield` -/

section Allocation

variable [LinearOrderedField α] (N : Numerics α) (X : Collaborators α ρ)
  (ImpactX_USE_FFT : Bool) (io : Nat) (pp_algo : ParmParse)
  (particle_container : ImpactXParticleContainer α ρ)
  (element_variant : ElementVariant α ρ) (slice_ds : α) (print_wakefield : Bool)

/-- C11: in a run of the pipeline every rank hands `DepositCharge1D` a histogram of
exactly `num_bins + 1` entries, all `0`, with `bin_min = t_min` and
`bin_size = (t_max - t_min) / (num_bins - 1)`; the two transverse-mean arrays handed to
`MeanTransversePosition` have exactly `num_bins` entries, all `0`. -/
theorem HandleWakefield_histogram_layout
    (hcsr : pp_algo.csr_enabled = true)
    (hel : (CSRBendElement element_variant particle_container.refpart).1 = true)
    (hfft : ImpactX_USE_FFT = true)
    (hio : io < particle_container.ranks.length)
    (hbins : 0 ≤ pp_algo.num_bins) :
    (∀ r, r < particle_container.ranks.length →
      Stage.DepositCharge1D r (List.replicate (pp_algo.num_bins + 1).toNat 0)
          (X.MinAndMaxPositions particle_container r).t_min
          (((X.MinAndMaxPositions particle_container r).t_max
              - (X.MinAndMaxPositions particle_container r).t_min)
            / ((pp_algo.num_bins - 1 : Int) : α)) false ∈
        (HandleWakefield N X ImpactX_USE_FFT io pp_algo particle_container element_variant
          slice_ds print_wakefield).trace)
    ∧ (∀ r hist bm bs u, Stage.DepositCharge1D r hist bm bs u ∈
        (HandleWakefield N X ImpactX_USE_FFT io pp_algo particle_container element_variant
          slice_ds print_wakefield).trace →
        (hist.length : Int) = pp_algo.num_bins + 1 ∧ (∀ v ∈ hist, v = 0)
        ∧ bm = (X.MinAndMaxPositions particle_container r).t_min
        ∧ bs = ((X.MinAndMaxPositions particle_container r).t_max
                  - (X.MinAndMaxPositions particle_container r).t_min)
                / ((pp_algo.num_bins - 1 : Int) : α))
    ∧ (∃ mx my bm bs u, Stage.MeanTransversePosition io mx my bm bs u ∈
        (HandleWakefield N X ImpactX_USE_FFT io pp_algo particle_container element_variant
          slice_ds print_wakefield).trace)
    ∧ (∀ r mx my bm bs u, Stage.MeanTransversePosition r mx my bm bs u ∈
        (HandleWakefield N X ImpactX_USE_FFT io pp_algo particle_container element_variant
          slice_ds print_wakefield).trace →
        (mx.length : Int) = pp_algo.num_bins ∧ (my.length : Int) = pp_algo.num_bins
        ∧ (∀ v ∈ mx, v = 0) ∧ (∀ v ∈ my, v = 0)) := by
  rw [HandleWakefield_run N X ImpactX_USE_FFT io pp_algo particle_container element_variant
    slice_ds print_wakefield (by rw [hcsr, hel]; rfl) hfft]
  refine ⟨?_, ?_, ?_, ?_⟩
  · intro r hr
    exact (mem_pipeline_trace_DepositCharge1D N X io particle_container _ _ slice_ds
      print_wakefield r _ _ _ _).2 ⟨hr, rfl, rfl, rfl, rfl⟩
  · intro r hist bm bs u h
    obtain ⟨_, rfl, rfl, rfl, _⟩ := (mem_pipeline_trace_DepositCharge1D N X io
      particle_container _ _ slice_ds print_wakefield r hist bm bs u).1 h
    refine ⟨?_, fun v hv => List.eq_of_mem_replicate hv, rfl, rfl⟩
    rw [List.length_replicate]
    omega
  · exact ⟨_, _, _, _, _, (mem_pipeline_trace_MeanTransversePosition N X io
      particle_container _ _ slice_ds print_wakefield io _ _ _ _ _).2
        ⟨hio, rfl, rfl, rfl, rfl, rfl, rfl⟩⟩
  · intro r mx my bm bs u h
    obtain ⟨_, _, rfl, rfl, _, _, _⟩ := (mem_pipeline_trace_MeanTransversePosition N X io
      particle_container _ _ slice_ds print_wakefield r mx my bm bs u).1 h
    refine ⟨?_, ?_, fun v hv => List.eq_of_mem_replicate hv,
      fun v hv => List.eq_of_mem_replicate hv⟩
    · rw [List.length_replicate]
      omega
    · rw [List.length_replicate]
      omega

end Allocation

/-- Witness for C11: the spread bunch on two ranks, two bins, an `Sbend`. -/
theorem HandleWakefield_histogram_layout_witness :
    (∀ r, r < (spreadBunch ℝ).ranks.length →
      Stage.DepositCharge1D r (List.replicate (csrOn.num_bins + 1).toNat 0)
          ((sampleCollaborators ℝ).MinAndMaxPositions (spreadBunch ℝ) r).t_min
          ((((sampleCollaborators ℝ).MinAndMaxPositions (spreadBunch ℝ) r).t_max - ((sampleCollaborators ℝ).MinAndMaxPositions (spreadBunch ℝ) r).t_min) / ((csrOn.num_bins - 1 : Int) : ℝ)) false ∈
        (HandleWakefield (Numerics.SI (fun x y : ℝ => x ^ y) Real.pi) (sampleCollaborators ℝ)
          true 0 csrOn (spreadBunch ℝ) (.Sbend ⟨10⟩) 1 false).trace)
    ∧ (∀ r hist bm bs u, Stage.DepositCharge1D r hist bm bs u ∈
        (HandleWakefield (Numerics.SI (fun x y : ℝ => x ^ y) Real.pi) (sampleCollaborators ℝ)
          true 0 csrOn (spreadBunch ℝ) (.Sbend ⟨10⟩) 1 false).trace →
        (hist.length : Int) = csrOn.num_bins + 1 ∧ (∀ v ∈ hist, v = 0)
        ∧ bm = ((sampleCollaborators ℝ).MinAndMaxPositions (spreadBunch ℝ) r).t_min
        ∧ bs = (((sampleCollaborators ℝ).MinAndMaxPositions (spreadBunch ℝ) r).t_max - ((sampleCollaborators ℝ).MinAndMaxPositions (spreadBunch ℝ) r).t_min) / ((csrOn.num_bins - 1 : Int) : ℝ))
    ∧ (∃ mx my bm bs u, Stage.MeanTransversePosition 0 mx my bm bs u ∈
        (HandleWakefield (Numerics.SI (fun x y : ℝ => x ^ y) Real.pi) (sampleCollaborators ℝ)
          true 0 csrOn (spreadBunch ℝ) (.Sbend ⟨10⟩) 1 false).trace)
    ∧ (∀ r mx my bm bs u, Stage.MeanTransversePosition r mx my bm bs u ∈
        (HandleWakefield (Numerics.SI (fun x y : ℝ => x ^ y) Real.pi) (sampleCollaborators ℝ)
          true 0 csrOn (spreadBunch ℝ) (.Sbend ⟨10⟩) 1 false).trace →
        (mx.length : Int) = csrOn.num_bins ∧ (my.length : Int) = csrOn.num_bins
        ∧ (∀ v ∈ mx, v = 0) ∧ (∀ v ∈ my, v = 0)) :=
  HandleWakefield_histogram_layout (Numerics.SI (fun x y : ℝ => x ^ y) Real.pi)
    (sampleCollaborators ℝ) true 0 csrOn (spreadBunch ℝ) (.Sbend ⟨10⟩) 1 false
    rfl rfl rfl (by decide) (by decide)

/-! ## Lemmas: the modelled charge deposition -/

/-- Adding into a bin keeps the number of bins. -/
lemma add_at_length [LinearOrderedField α] (l : List α) (i : Nat) (v : α) : (add_at l i v).length = l.length := by
  induction l generalizing i with
  | nil => rfl
  | cons h t ih =>
    cases i with
    | zero => rfl
    | succ j => simp [add_at, ih]

/-- Adding into an existing bin raises the total by the amount added. -/
lemma add_at_sum [LinearOrderedField α] (l : List α) (i : Nat) (v : α) (hi : i < l.length) :
    (add_at l i v).sum = l.sum + v := by
  induction l generalizing i with
  | nil => simp at hi
  | cons h t ih =>
    cases i with
    | zero => simp [add_at]; ring
    | succ j =>
      have hj : j < t.length := by simpa using hi
      simp [add_at, ih j hj]; ring

section Deposit

variable [LinearOrderedField α] [FloorRing α]

/-- The bin of a particle is one of the `num_bins + 1` bins. -/
lemma bin_index_le (num_bins : Nat) (bin_min bin_size s : α) :
    bin_index num_bins bin_min bin_size s ≤ num_bins := by
  simp only [bin_index]
  split_ifs with h
  · omega
  · exact le_refl _

/-- Depositing particles one after the other into `n + 1` or more bins keeps the
number of bins and raises the total by the deposited amounts. -/
lemma foldl_add_at (n : Nat) (bin_min bin_size : α) (wt : Particle α → α)
    (ps : List (Particle α)) (hist : List α) (hn : n < hist.length) :
    (ps.foldl (fun h p => add_at h (bin_index n bin_min bin_size p.t) (wt p)) hist).length
        = hist.length
    ∧ (ps.foldl (fun h p => add_at h (bin_index n bin_min bin_size p.t) (wt p)) hist).sum
        = hist.sum + (ps.map wt).sum := by
  induction ps generalizing hist with
  | nil => simp
  | cons p ps ih =>
    have hlen := add_at_length hist (bin_index n bin_min bin_size p.t) (wt p)
    have hsum := add_at_sum hist (bin_index n bin_min bin_size p.t) (wt p)
      (lt_of_le_of_lt (bin_index_le n bin_min bin_size p.t) hn)
    obtain ⟨h1, h2⟩ := ih (add_at hist (bin_index n bin_min bin_size p.t) (wt p))
      (by rw [hlen]; exact hn)
    refine ⟨?_, ?_⟩
    · rw [List.foldl_cons, h1, hlen]
    · rw [List.foldl_cons, h2, hsum, List.map_cons, List.sum_cons]
      ring

/-- The modelled deposition keeps the number of bins. -/
lemma DepositCharge1D_length (ps : List (Particle α)) (hist : List α) (bin_min bin_size : α)
    (u : Bool) : (DepositCharge1D ps hist bin_min bin_size u).length = hist.length := by
  rcases Nat.eq_zero_or_pos hist.length with h0 | hpos
  · have hnil : hist = [] := List.length_eq_zero.mp h0
    subst hnil
    unfold DepositCharge1D
    induction ps with
    | nil => rfl
    | cons p ps ih => simpa [add_at] using ih
  · exact (foldl_add_at (hist.length - 1) bin_min bin_size _ ps hist (by omega)).1

/-- The modelled deposition into a non-empty histogram conserves what is deposited. -/
lemma DepositCharge1D_sum (ps : List (Particle α)) (hist : List α) (bin_min bin_size : α)
    (u : Bool) (hpos : 0 < hist.length) :
    (DepositCharge1D ps hist bin_min bin_size u).sum
      = hist.sum + (ps.map fun p => if u then 1 else p.w).sum :=
  (foldl_add_at (hist.length - 1) bin_min bin_size _ ps hist (by omega)).2

end Deposit

/-! ## Theorems: the arguments of `convolve_fft` -/

section ConvolveArguments

variable [LinearOrderedField α] [FloorRing α] (N : Numerics α) (X : Collaborators α ρ)
  (ImpactX_USE_FFT : Bool) (io : Nat) (pp_algo : ParmParse)
  (particle_container : ImpactXParticleContainer α ρ)
  (element_variant : ElementVariant α ρ) (slice_ds : α) (print_wakefield : Bool)

/-- C18: for `num_bins ≥ 1`, in a run of the pipeline (with the deposition and the
derivative as modelled) `convolve_fft` is called, on the I/O rank only, with
`num_bins` slopes (one fewer than the entries of the reduced histogram), a kernel of
exactly `2 * num_bins` entries, built with the same `bin_size` that is passed as
`delta_t` and that the rank passed to `DepositCharge1D`. -/
theorem HandleWakefield_convolve_fft_arguments
    (hcsr : pp_algo.csr_enabled = true)
    (hel : (CSRBendElement element_variant particle_container.refpart).1 = true)
    (hfft : ImpactX_USE_FFT = true)
    (hio : io < particle_container.ranks.length)
    (hbins : 1 ≤ pp_algo.num_bins) :
    (∃ sl wk dt, Stage.convolve_fft io sl wk dt ∈
        (HandleWakefield N (withSpec X) ImpactX_USE_FFT io pp_algo particle_container
          element_variant slice_ds print_wakefield).trace)
    ∧ ∀ r sl wk dt, Stage.convolve_fft r sl wk dt ∈
        (HandleWakefield N (withSpec X) ImpactX_USE_FFT io pp_algo particle_container
          element_variant slice_ds print_wakefield).trace →
        r = io
        ∧ (sl.length : Int) = pp_algo.num_bins
        ∧ sl.length + 1 = ((ParallelReduce_Sum
            (charge_distribution (withSpec X) particle_container pp_algo.num_bins)
            io).getD io []).length
        ∧ (wk.length : Int) = 2 * pp_algo.num_bins
        ∧ 2 * sl.length = wk.length
        ∧ wk = wake_function N pp_algo.num_bins
            (CSRBendElement element_variant particle_container.refpart).2 dt
        ∧ dt = bin_size (withSpec X) particle_container pp_algo.num_bins io
        ∧ Stage.DepositCharge1D io (List.replicate (pp_algo.num_bins + 1).toNat 0)
            ((withSpec X).MinAndMaxPositions particle_container io).t_min dt false ∈
          (HandleWakefield N (withSpec X) ImpactX_USE_FFT io pp_algo particle_container
          element_variant slice_ds print_wakefield).trace := by
  have hsl := slopes_length_of_preserving (withSpec X) io particle_container pp_algo.num_bins
    (fun _ ps h bm b u => DepositCharge1D_length ps h bm b u)
    (fun c s b f => DerivativeCharge1D_length c s b f) hio
  have hred : ((ParallelReduce_Sum
      (charge_distribution (withSpec X) particle_container pp_algo.num_bins) io).getD io
        []).length = (pp_algo.num_bins + 1).toNat := by
    rw [ParallelReduce_Sum_root _ _ (by rw [charge_distribution_length]; exact hio),
      List.length_map, List.length_range,
      charge_distribution_getD (withSpec X) particle_container pp_algo.num_bins io hio]
    exact (DepositCharge1D_length _ _ _ _ _).trans (List.length_replicate _ _)
  rw [HandleWakefield_run N (withSpec X) ImpactX_USE_FFT io pp_algo particle_container
    element_variant slice_ds print_wakefield (by rw [hcsr, hel]; rfl) hfft]
  refine ⟨?_, ?_⟩
  · exact ⟨_, _, _, (mem_pipeline_trace_convolve_fft_iff N (withSpec X) io particle_container
      _ _ slice_ds print_wakefield io _ _ _).2 ⟨hio, rfl, rfl, rfl, rfl⟩⟩
  · intro r sl wk dt h
    obtain ⟨_, hr, rfl, rfl, rfl⟩ := (mem_pipeline_trace_convolve_fft_iff N (withSpec X) io
      particle_container _ _ slice_ds print_wakefield r sl wk dt).1 h
    have hwk : (wake_function N pp_algo.num_bins
        (CSRBendElement element_variant particle_container.refpart).2
        (bin_size (withSpec X) particle_container pp_algo.num_bins io)).length
        = (pp_algo.num_bins * 2).toNat := by
      simp [wake_function]
    refine ⟨hr, ?_, ?_, ?_, ?_, rfl, rfl, ?_⟩
    · rw [hsl]; omega
    · rw [hsl, hred]; omega
    · rw [hwk]; omega
    · rw [hsl, hwk]; omega
    · exact (mem_pipeline_trace_DepositCharge1D N (withSpec X) io particle_container _ _
        slice_ds print_wakefield io _ _ _ _).2 ⟨hio, rfl, rfl, rfl, rfl⟩

end ConvolveArguments

/-- Witness for C18: the scenario bunch on two ranks, four bins, an `Sbend`. -/
theorem HandleWakefield_convolve_fft_arguments_witness :
    (∃ sl wk dt, Stage.convolve_fft 0 sl wk dt ∈
        (HandleWakefield (Numerics.SI (fun x y : ℝ => x ^ y) Real.pi)
          (withSpec (sampleCollaborators ℝ)) true 0 csrOn4 (scenarioBunch ℝ) (.Sbend ⟨10⟩) 1
          false).trace)
    ∧ ∀ r sl wk dt, Stage.convolve_fft r sl wk dt ∈
        (HandleWakefield (Numerics.SI (fun x y : ℝ => x ^ y) Real.pi)
          (withSpec (sampleCollaborators ℝ)) true 0 csrOn4 (scenarioBunch ℝ) (.Sbend ⟨10⟩) 1
          false).trace →
        r = 0
        ∧ (sl.length : Int) = csrOn4.num_bins
        ∧ sl.length + 1 = ((ParallelReduce_Sum
            (charge_distribution (withSpec (sampleCollaborators ℝ)) (scenarioBunch ℝ)
              csrOn4.num_bins) 0).getD 0 []).length
        ∧ (wk.length : Int) = 2 * csrOn4.num_bins
        ∧ 2 * sl.length = wk.length
        ∧ wk = wake_function (Numerics.SI (fun x y : ℝ => x ^ y) Real.pi) csrOn4.num_bins
            (CSRBendElement (.Sbend ⟨10⟩ : ElementVariant ℝ Unit) (scenarioBunch ℝ).refpart).2
            dt
        ∧ dt = bin_size (withSpec (sampleCollaborators ℝ)) (scenarioBunch ℝ) csrOn4.num_bins 0
        ∧ Stage.DepositCharge1D 0 (List.replicate (csrOn4.num_bins + 1).toNat 0)
            ((withSpec (sampleCollaborators ℝ)).MinAndMaxPositions (scenarioBunch ℝ) 0).t_min
            dt false ∈
          (HandleWakefield (Numerics.SI (fun x y : ℝ => x ^ y) Real.pi)
          (withSpec (sampleCollaborators ℝ)) true 0 csrOn4 (scenarioBunch ℝ) (.Sbend ⟨10⟩) 1
          false).trace :=
  HandleWakefield_convolve_fft_arguments (Numerics.SI (fun x y : ℝ => x ^ y) Real.pi)
    (sampleCollaborators ℝ) true 0 csrOn4 (scenarioBunch ℝ) (.Sbend ⟨10⟩) 1 false
    rfl rfl rfl (by decide) (by decide)

/-! ## Theorems: charge conservation -/

/-- Reading a list back entry by entry. -/
lemma map_getD_range [LinearOrderedField α] (l : List α) :
    (List.range l.length).map (fun i => l.getD i 0) = l := by
  apply List.ext_getElem?
  intro n
  by_cases h : n < l.length
  · simp [List.getElem?_range h, List.getElem?_eq_getElem h, List.getD_eq_getElem?_getD]
  · have h' : l.length ≤ n := not_lt.mp h
    simp [List.getElem?_eq_none h', h']

/-- Summing the element-wise sum of equally long buffers gives the sum of their
totals. -/
lemma sum_columns [LinearOrderedField α] (L : Nat) (bufs : List (List α))
    (hlen : ∀ b ∈ bufs, b.length = L) :
    ((List.range L).map fun i => (bufs.map fun b => b.getD i 0).sum).sum
      = (bufs.map List.sum).sum := by
  induction bufs with
  | nil => simp
  | cons b bs ih =>
    have hb : b.length = L := hlen b (List.mem_cons_self _ _)
    have hbs : ∀ c ∈ bs, c.length = L := fun c hc => hlen c (List.mem_cons_of_mem _ hc)
    have hcol : ((List.range L).map fun i => b.getD i 0).sum = b.sum := by
      rw [← hb, map_getD_range]
    simp only [List.map_cons, List.sum_cons, List.sum_map_add, hcol, ih hbs]

/-- After the reduction the root's histogram totals the totals of all ranks. -/
lemma ParallelReduce_Sum_total [LinearOrderedField α] (L : Nat) (bufs : List (List α))
    (hlen : ∀ b ∈ bufs, b.length = L) (root : Nat) (h : root < bufs.length) :
    ((ParallelReduce_Sum bufs root).getD root []).sum = (bufs.map List.sum).sum := by
  have hroot : (bufs.getD root []).length = L := by
    rw [List.getD_eq_getElem?_getD, List.getElem?_eq_getElem h]
    exact hlen _ (List.getElem_mem h)
  rw [ParallelReduce_Sum_root bufs root h, hroot, sum_columns L bufs hlen]

section Conservation

variable [LinearOrderedField α] [FloorRing α]

/-- The reduced histogram of the modelled deposition totals what all particles of all
ranks deposit, whatever `bin_min` and `bin_size` each rank uses. -/
lemma deposits_total (ranks : List (List (Particle α))) (L : Nat) (hL : 0 < L)
    (bm bs : Nat → α) (u : Bool) (root : Nat) (h : root < ranks.length) :
    ((ParallelReduce_Sum
        (ranks.enum.map fun rp =>
          DepositCharge1D rp.2 (List.replicate L 0) (bm rp.1) (bs rp.1) u) root).getD
      root []).sum
      = (ranks.flatten.map fun p => if u then 1 else p.w).sum := by
  have hlen : ∀ b ∈ ranks.enum.map (fun rp =>
      DepositCharge1D rp.2 (List.replicate L (0 : α)) (bm rp.1) (bs rp.1) u),
      b.length = L := by
    intro b hb
    obtain ⟨rp, _, rfl⟩ := List.mem_map.mp hb
    rw [DepositCharge1D_length, List.length_replicate]
  have hsum : ∀ rp : Nat × List (Particle α),
      (DepositCharge1D rp.2 (List.replicate L (0 : α)) (bm rp.1) (bs rp.1) u).sum
        = ((fun ps : List (Particle α) => (ps.map fun p => if u then 1 else p.w).sum)
            ∘ Prod.snd) rp := by
    intro rp
    rw [DepositCharge1D_sum _ _ _ _ _ (by simpa using hL)]
    simp
  rw [ParallelReduce_Sum_total L _ hlen root (by simpa using h), List.map_map]
  have hfun : (List.sum ∘ fun rp : Nat × List (Particle α) =>
      DepositCharge1D rp.2 (List.replicate L (0 : α)) (bm rp.1) (bs rp.1) u)
      = ((fun ps : List (Particle α) => (ps.map fun p => if u then 1 else p.w).sum)
          ∘ Prod.snd) := funext hsum
  rw [hfun, ← List.map_map, List.enum_map_snd, List.map_flatten, List.sum_flatten,
    List.map_map]
  rfl

/-- C12: with the deposition as modelled, for `num_bins ≥ 1` and `bin_min`, `bin_size`
as `HandleWakefield` chooses them, the entries of the histogram the root holds after
the reduction sum to the total weight of all particles; in unity-weight mode they sum
to the number of particles; and the total is the same for every other distribution of
the same particles over ranks. -/
theorem charge_conservation (X : Collaborators α ρ)
    (particle_container : ImpactXParticleContainer α ρ) (num_bins : Int)
    (hbins : 1 ≤ num_bins) (io : Nat) (hio : io < particle_container.ranks.length) :
    ((ParallelReduce_Sum (charge_distribution (withSpec X) particle_container num_bins)
        io).getD io []).sum
      = (particle_container.ranks.flatten.map fun p => p.w).sum
    ∧ ((ParallelReduce_Sum
        (particle_container.ranks.enum.map fun rp =>
          DepositCharge1D rp.2 (List.replicate (num_bins + 1).toNat 0)
            ((withSpec X).MinAndMaxPositions particle_container rp.1).t_min
            (bin_size (withSpec X) particle_container num_bins rp.1) true) io).getD
        io []).sum
      = (particle_container.ranks.flatten.length : α)
    ∧ ∀ (pc' : ImpactXParticleContainer α ρ) (io' : Nat), io' < pc'.ranks.length →
        pc'.ranks.flatten.Perm particle_container.ranks.flatten →
        ((ParallelReduce_Sum (charge_distribution (withSpec X) pc' num_bins) io').getD
            io' []).sum
          = ((ParallelReduce_Sum (charge_distribution (withSpec X) particle_container num_bins)
              io).getD io []).sum := by
  have hL : 0 < (num_bins + 1).toNat := by omega
  have hw : ∀ (pc : ImpactXParticleContainer α ρ) (root : Nat), root < pc.ranks.length →
      ((ParallelReduce_Sum (charge_distribution (withSpec X) pc num_bins) root).getD
          root []).sum
        = (pc.ranks.flatten.map fun p => p.w).sum := by
    intro pc root hroot
    have h := deposits_total pc.ranks (num_bins + 1).toNat hL
      (fun r => ((withSpec X).MinAndMaxPositions pc r).t_min)
      (fun r => bin_size (withSpec X) pc num_bins r) false root hroot
    simpa [charge_distribution, withSpec] using h
  refine ⟨hw particle_container io hio, ?_, ?_⟩
  · have h := deposits_total particle_container.ranks (num_bins + 1).toNat hL
      (fun r => ((withSpec X).MinAndMaxPositions particle_container r).t_min)
      (fun r => bin_size (withSpec X) particle_container num_bins r) true io hio
    rw [h]
    have hone : (fun p : Particle α => if true = true then (1 : α) else p.w)
        = fun _ => 1 := by
      funext p
      simp
    rw [hone]
    generalize particle_container.ranks.flatten = l
    induction l with
    | nil => simp
    | cons p l ih =>
      rw [List.map_cons, List.sum_cons, ih, List.length_cons]
      push_cast
      ring
  · intro pc' io' hio' hperm
    rw [hw pc' io' hio', hw particle_container io hio]
    exact (hperm.map _).sum_eq

end Conservation

/-- Witness for C12: the scenario bunch on two ranks with four bins. -/
theorem charge_conservation_witness :
    ((ParallelReduce_Sum
        (charge_distribution (withSpec (sampleCollaborators ℝ)) (scenarioBunch ℝ) 4)
        0).getD 0 []).sum
      = ((scenarioBunch ℝ).ranks.flatten.map fun p => p.w).sum
    ∧ ((ParallelReduce_Sum
        ((scenarioBunch ℝ).ranks.enum.map fun rp =>
          DepositCharge1D rp.2 (List.replicate ((4 : Int) + 1).toNat 0)
            ((withSpec (sampleCollaborators ℝ)).MinAndMaxPositions (scenarioBunch ℝ)
              rp.1).t_min
            (bin_size (withSpec (sampleCollaborators ℝ)) (scenarioBunch ℝ) 4 rp.1) true)
        0).getD 0 []).sum
      = ((scenarioBunch ℝ).ranks.flatten.length : ℝ)
    ∧ ∀ (pc' : ImpactXParticleContainer ℝ Unit) (io' : Nat), io' < pc'.ranks.length →
        pc'.ranks.flatten.Perm (scenarioBunch ℝ).ranks.flatten →
        ((ParallelReduce_Sum (charge_distribution (withSpec (sampleCollaborators ℝ)) pc' 4)
            io').getD io' []).sum
          = ((ParallelReduce_Sum
              (charge_distribution (withSpec (sampleCollaborators ℝ)) (scenarioBunch ℝ) 4)
              0).getD 0 []).sum :=
  charge_conservation (sampleCollaborators ℝ) (scenarioBunch ℝ) 4 (by decide) 0 (by decide)

/-! ## Theorems: a particle at the upper edge of the bunch -/

/-- C13 (as stated, refuted): in the concrete scenario (four unit-weight particles at
`0`, `0.1`, `0.2`, `0.3`, `num_bins = 4`, `bin_min = 0`, `bin_size = (0.3 - 0) / 3`) the
particle at `s = s_max = 0.3` has bin index `3`, not `4`, and the histogram is
`[1,1,1,1,0]`: the overflow bin is empty. -/
theorem boundary_particle_not_in_overflow_bin :
    bin_index 4 (0 : ℚ) ((3 / 10 - 0) / ((4 - 1 : Int) : ℚ)) (3 / 10) = 3
    ∧ DepositCharge1D (scenarioParticles ℚ) (List.replicate ((4 : Int) + 1).toNat 0) 0
        ((3 / 10 - 0) / ((4 - 1 : Int) : ℚ)) true = [1, 1, 1, 1, 0] := by
  refine ⟨?_, ?_⟩
  · norm_num [bin_index]
    rfl
  · norm_num [DepositCharge1D, scenarioParticles, bin_index, add_at, List.replicate]

/-- The bin that was added to holds its old content plus the amount added. -/
lemma add_at_getD_self [LinearOrderedField α] (l : List α) (i : Nat) (v : α)
    (hi : i < l.length) : (add_at l i v).getD i 0 = l.getD i 0 + v := by
  induction l generalizing i with
  | nil => simp at hi
  | cons h t ih =>
    cases i with
    | zero => simp [add_at]
    | succ j =>
      have hj : j < t.length := by simpa using hi
      simpa [add_at] using ih j hj

/-- Every other bin is left as it was. -/
lemma add_at_getD_ne [LinearOrderedField α] (l : List α) (i j : Nat) (v : α) (hij : i ≠ j) :
    (add_at l i v).getD j 0 = l.getD j 0 := by
  induction l generalizing i j with
  | nil => rfl
  | cons h t ih =>
    cases i with
    | zero =>
      cases j with
      | zero => exact absurd rfl hij
      | succ k => simp [add_at]
    | succ m =>
      cases j with
      | zero => simp [add_at]
      | succ k =>
        have hmk : m ≠ k := fun hh => hij (by rw [hh])
        simpa [add_at] using ih m k hmk

section Boundary

variable [LinearOrderedField α] [FloorRing α]

/-- Depositing particles one after the other: every bin ends with what it held plus
the amounts of exactly the particles whose bin it is. -/
lemma foldl_add_at_getD (n : Nat) (bin_min bin_size : α) (wt : Particle α → α)
    (ps : List (Particle α)) (hist : List α) (hn : n < hist.length) (j : Nat) :
    (ps.foldl (fun h p => add_at h (bin_index n bin_min bin_size p.t) (wt p)) hist).getD j 0
      = hist.getD j 0
        + ((ps.filter fun q => decide (bin_index n bin_min bin_size q.t = j)).map wt).sum := by
  induction ps generalizing hist with
  | nil => simp
  | cons p ps ih =>
    have hlt : bin_index n bin_min bin_size p.t < hist.length :=
      lt_of_le_of_lt (bin_index_le n bin_min bin_size p.t) hn
    rw [List.foldl_cons, ih _ (by rw [add_at_length]; exact hn)]
    by_cases hb : bin_index n bin_min bin_size p.t = j
    · rw [List.filter_cons_of_pos (by simpa using hb), List.map_cons, List.sum_cons, ← hb,
        add_at_getD_self _ _ _ hlt]
      ring
    · rw [List.filter_cons_of_neg (by simpa using hb), add_at_getD_ne _ _ _ _ hb]

/-- Entry `j` of the modelled histogram after the deposition. -/
lemma DepositCharge1D_getD (ps : List (Particle α)) (hist : List α) (bin_min bin_size : α)
    (u : Bool) (hpos : 0 < hist.length) (j : Nat) :
    (DepositCharge1D ps hist bin_min bin_size u).getD j 0
      = hist.getD j 0
        + ((ps.filter fun q =>
              decide (bin_index (hist.length - 1) bin_min bin_size q.t = j)).map
            fun q => if u then 1 else q.w).sum :=
  foldl_add_at_getD (hist.length - 1) bin_min bin_size _ ps hist (by omega) j

/-- C13 (amended): with the deposition as modelled, for every bunch, every `bin_min`
and every value of `bin_size` (in particular `bin_min = s_min` and
`bin_size = (s_max - s_min) / (num_bins - 1)` as it was computed), a particle of the
bunch exactly at `s = s_max` is not dropped: its bin is one of the `num_bins + 1`
histogram entries, every histogram entry holds the summed weights (or counts) of
exactly the particles whose bin it is, the particle at `s_max` being among those of
its bin, and the entries total the weights of all particles.  Which entry it is
depends on the computed quotient; it need not be the trailing overflow bin. -/
theorem boundary_particle_not_dropped (n : Nat) (bin_min bin_size s_max : α)
    (ps : List (Particle α)) (p : Particle α) (hp : p ∈ ps) (hpt : p.t = s_max) (u : Bool) :
    bin_index n bin_min bin_size s_max ≤ n
    ∧ p ∈ ps.filter (fun q =>
        decide (bin_index n bin_min bin_size q.t = bin_index n bin_min bin_size s_max))
    ∧ (∀ j, (DepositCharge1D ps (List.replicate (n + 1) 0) bin_min bin_size u).getD j 0
        = ((ps.filter fun q => decide (bin_index n bin_min bin_size q.t = j)).map
            fun q => if u then 1 else q.w).sum)
    ∧ (DepositCharge1D ps (List.replicate (n + 1) 0) bin_min bin_size u).sum
        = (ps.map fun q => if u then 1 else q.w).sum := by
  refine ⟨bin_index_le n bin_min bin_size s_max, ?_, ?_, ?_⟩
  · rw [List.mem_filter]
    exact ⟨hp, by simp [hpt]⟩
  · intro j
    have h := DepositCharge1D_getD ps (List.replicate (n + 1) (0 : α)) bin_min bin_size u
      (by simp) j
    have hz : (List.replicate (n + 1) (0 : α)).getD j 0 = 0 := by
      rw [List.getD_eq_getElem?_getD, List.getElem?_replicate]
      split_ifs <;> rfl
    rw [h, hz, zero_add, List.length_replicate, Nat.add_sub_cancel]
  · rw [DepositCharge1D_sum ps _ bin_min bin_size u (by simp)]
    simp

end Boundary

/-- Witness for C13 (amended): the four scenario particles, four bins on `[0, 0.3]`,
the particle at `s_max = 0.3`, unity-weight mode. -/
theorem boundary_particle_not_dropped_witness :
    bin_index 4 (0 : ℚ) ((3 / 10 - 0) / ((4 - 1 : Int) : ℚ)) (3 / 10) ≤ 4
    ∧ (⟨0, 0, 3 / 10, 0, 0, 0, 1⟩ : Particle ℚ) ∈ (scenarioParticles ℚ).filter (fun q =>
        decide (bin_index 4 0 ((3 / 10 - 0) / ((4 - 1 : Int) : ℚ)) q.t
          = bin_index 4 0 ((3 / 10 - 0) / ((4 - 1 : Int) : ℚ)) (3 / 10)))
    ∧ (∀ j, (DepositCharge1D (scenarioParticles ℚ) (List.replicate (4 + 1) 0) 0
          ((3 / 10 - 0) / ((4 - 1 : Int) : ℚ)) true).getD j 0
        = (((scenarioParticles ℚ).filter fun q =>
              decide (bin_index 4 0 ((3 / 10 - 0) / ((4 - 1 : Int) : ℚ)) q.t = j)).map
            fun q => if true then 1 else q.w).sum)
    ∧ (DepositCharge1D (scenarioParticles ℚ) (List.replicate (4 + 1) 0) 0
          ((3 / 10 - 0) / ((4 - 1 : Int) : ℚ)) true).sum
        = ((scenarioParticles ℚ).map fun q => if true then 1 else q.w).sum :=
  boundary_particle_not_dropped 4 0 ((3 / 10 - 0) / ((4 - 1 : Int) : ℚ)) (3 / 10)
    (scenarioParticles ℚ) ⟨0, 0, 3 / 10, 0, 0, 0, 1⟩ (by simp [scenarioParticles]) rfl true

/-- The bin of the particle at `s_max` follows the computed value of `bin_size`: for
`s_min = 0`, `s_max = 1.1` and eight bins, a `bin_size` of `0.15714285714285717`
(the quotient `1.1 / 7` rounded upwards in the last digit) puts it into bin `6`, while
the exact quotient `1.1 / 7` puts it into bin `7`. -/
lemma bin_index_follows_bin_size :
    bin_index 8 (0 : ℚ) (15714285714285717 / 100000000000000000) (11 / 10) = 6
    ∧ bin_index 8 (0 : ℚ) ((11 / 10 - 0) / ((8 - 1 : Int) : ℚ)) (11 / 10) = 7 := by
  have h6 : ⌊((11 / 10 : ℚ) - 0) / (15714285714285717 / 100000000000000000)⌋ = 6 := by
    rw [Int.floor_eq_iff]
    constructor <;> norm_num
  have h7 : ⌊((11 / 10 : ℚ) - 0) / ((11 / 10 - 0) / ((8 - 1 : Int) : ℚ))⌋ = 7 := by
    rw [Int.floor_eq_iff]
    constructor <;> norm_num
  refine ⟨?_, ?_⟩
  · simp only [bin_index, h6]
    rfl
  · simp only [bin_index, h7]
    rfl

/-! ## Theorems: decay and continuity of the kernel function over the reals -/

/-- The step times the `2/3` power of the modulus is the `2/3` power of the positive
part. -/
lemma unit_step_mul_rpow (x : ℝ) :
    unit_step x * |x| ^ (2 / 3 : ℝ) = (max x 0) ^ (2 / 3 : ℝ) := by
  by_cases hx : 0 ≤ x
  · simp [unit_step, hx, abs_of_nonneg hx, max_eq_left hx]
  · have hx' : x ≤ 0 := le_of_lt (not_le.mp hx)
    have h23 : (2 / 3 : ℝ) ≠ 0 := by norm_num
    simp [unit_step, hx, max_eq_right hx', Real.zero_rpow h23]

/-- The kernel function as a constant times `R ^ (-2/3)`. -/
lemma w_l_csr_factor (q_e ep0 m_e c s D R : ℝ) :
    w_l_csr (Numerics.mk (fun x y => x ^ y) Real.pi q_e ep0 m_e c) s R D
      = ((-3) / 2 * ((2 * (q_e ^ (2 : ℝ) / (4 * Real.pi * ep0 * m_e * c ^ (2 : ℝ))) * m_e
            * c ^ (2 : ℝ)) / (3 : ℝ) ^ (1 / 3 : ℝ)) / D
          * (unit_step (s + D / 2) * |s + D / 2| ^ (2 / 3 : ℝ)
              - unit_step (s - D / 2) * |s - D / 2| ^ (2 / 3 : ℝ)))
        * (R ^ (2 / 3 : ℝ))⁻¹ := by
  simp only [w_l_csr]
  ring

/-- C15: over the reals, for fixed `s` and `bin_size = D > 0`, `|w_l_csr(s, R, D)|`
tends to `0` as the bend radius `R` tends to `+∞`. -/
theorem w_l_csr_tendsto_zero (q_e ep0 m_e c s D : ℝ) (_hD : 0 < D) :
    Filter.Tendsto
      (fun R : ℝ => |w_l_csr (Numerics.mk (fun x y => x ^ y) Real.pi q_e ep0 m_e c) s R D|)
      Filter.atTop (nhds 0) := by
  have hinv : Filter.Tendsto (fun R : ℝ => (R ^ (2 / 3 : ℝ))⁻¹) Filter.atTop (nhds 0) :=
    tendsto_inv_atTop_zero.comp (tendsto_rpow_atTop (by norm_num : (0 : ℝ) < 2 / 3))
  have hfun : (fun R : ℝ =>
      |w_l_csr (Numerics.mk (fun x y => x ^ y) Real.pi q_e ep0 m_e c) s R D|)
      = fun R : ℝ => |((-3) / 2 * ((2 * (q_e ^ (2 : ℝ) / (4 * Real.pi * ep0 * m_e
            * c ^ (2 : ℝ))) * m_e * c ^ (2 : ℝ)) / (3 : ℝ) ^ (1 / 3 : ℝ)) / D
          * (unit_step (s + D / 2) * |s + D / 2| ^ (2 / 3 : ℝ)
              - unit_step (s - D / 2) * |s - D / 2| ^ (2 / 3 : ℝ)))
        * (R ^ (2 / 3 : ℝ))⁻¹| := by
    funext R
    rw [w_l_csr_factor]
  rw [hfun]
  have h := (hinv.const_mul ((-3) / 2 * ((2 * (q_e ^ (2 : ℝ) / (4 * Real.pi * ep0 * m_e
            * c ^ (2 : ℝ))) * m_e * c ^ (2 : ℝ)) / (3 : ℝ) ^ (1 / 3 : ℝ)) / D
          * (unit_step (s + D / 2) * |s + D / 2| ^ (2 / 3 : ℝ)
              - unit_step (s - D / 2) * |s - D / 2| ^ (2 / 3 : ℝ)))).abs
  simpa using h

/-- Witness for C15: lag `1/4`, bin size `1/2`, the CODATA constants. -/
theorem w_l_csr_tendsto_zero_witness :
    Filter.Tendsto
      (fun R : ℝ => |w_l_csr (Numerics.SI (fun x y : ℝ => x ^ y) Real.pi) (1 / 4) R (1 / 2)|)
      Filter.atTop (nhds 0) :=
  w_l_csr_tendsto_zero _ _ _ _ (1 / 4) (1 / 2) (by norm_num)

/-- The kernel function is continuous in the lag. -/
lemma w_l_csr_continuous (q_e ep0 m_e c R D : ℝ) :
    Continuous fun s : ℝ =>
      w_l_csr (Numerics.mk (fun x y => x ^ y) Real.pi q_e ep0 m_e c) s R D := by
  have hg : Continuous fun x : ℝ => (max x 0) ^ (2 / 3 : ℝ) :=
    (Real.continuous_rpow_const (by norm_num : (0 : ℝ) ≤ 2 / 3)).comp
      (continuous_id.max continuous_const)
  have hfun : (fun s : ℝ =>
      w_l_csr (Numerics.mk (fun x y => x ^ y) Real.pi q_e ep0 m_e c) s R D)
      = fun s : ℝ => (-3) / 2 * ((2 * (q_e ^ (2 : ℝ) / (4 * Real.pi * ep0 * m_e
            * c ^ (2 : ℝ))) * m_e * c ^ (2 : ℝ)) / (3 : ℝ) ^ (1 / 3 : ℝ)
            / R ^ (2 / 3 : ℝ)) / D
          * ((max (s + D / 2) 0) ^ (2 / 3 : ℝ) - (max (s - D / 2) 0) ^ (2 / 3 : ℝ)) := by
    funext s
    simp only [w_l_csr]
    rw [unit_step_mul_rpow, unit_step_mul_rpow]
  rw [hfun]
  exact continuous_const.mul
    ((hg.comp (continuous_id.add continuous_const)).sub
      (hg.comp (continuous_id.sub continuous_const)))

/-- C16: over the reals, for fixed `R > 0` and `bin_size = D > 0`, the function
`s ↦ w_l_csr(s, R, D)` is continuous at every `s ≠ 0`. -/
theorem w_l_csr_continuousAt (q_e ep0 m_e c R D s : ℝ) (_hR : 0 < R) (_hD : 0 < D)
    (_hs : s ≠ 0) :
    ContinuousAt
      (fun x : ℝ => w_l_csr (Numerics.mk (fun x y => x ^ y) Real.pi q_e ep0 m_e c) x R D) s :=
  (w_l_csr_continuous q_e ep0 m_e c R D).continuousAt

/-- Witness for C16: radius `10`, bin size `1/2`, at the lag `1/4` where the second
step switches on. -/
theorem w_l_csr_continuousAt_witness :
    ContinuousAt
      (fun x : ℝ => w_l_csr (Numerics.SI (fun x y : ℝ => x ^ y) Real.pi) x 10 (1 / 2))
      (1 / 4) :=
  w_l_csr_continuousAt _ _ _ _ 10 (1 / 2) (1 / 4) (by norm_num) (by norm_num) (by norm_num)

end particles.wakefields

end impactx
